import Mathlib

/-!
Verification of the rufs UFS2 engine (fuse-ufs repository) against its
natural-language specification.

The development shallowly embeds the Rust sources under `src/rufs/src/`:
pure arithmetic becomes Lean functions on `Nat`/`Int`, stateful code becomes
explicit state passing, fallible code returns an `Outcome` that distinguishes
normal returns, `errno`-style error returns, and Rust panics
(`panic!`/`assert!`/`todo!`, which terminate the process).

Machine integers are modelled as `Nat`/`Int`; where the source can wrap
(u64 subtraction, i32/i64 counter increments) the wrap is made explicit
(`wsub64`, `wrap32`, `wrap64`).
-/

namespace Rufs

/-- Error kinds carried through the engine API (errno values). -/
inductive Err where
  | EROFS
  | EINVAL
  | EIO
  | ENOENT
  | ENOSPC
  | EFAULT
  | ENOTDIR
  | ENOTEMPTY
deriving DecidableEq, Repr

/-- Result of a call in the engine: a normal return, an error return, or a
Rust panic (`panic!` / failed `assert!` / `todo!`), which terminates the
process instead of returning. -/
inductive Outcome (α : Type) where
  | ok (a : α)
  | err (e : Err)
  | panic
deriving DecidableEq, Repr

/-- u64 subtraction `x - y`, with the wrap-around the release build performs
when `y > x` (`x`, `y` are assumed `< 2^64`). -/
def wsub64 (x y : Nat) : Nat :=
  if y ≤ x then x - y else (x + 2 ^ 64 - y) % 2 ^ 64

/-- i32 wrap-around of a mathematical integer. -/
def wrap32 (x : Int) : Int := (x + 2 ^ 31) % 2 ^ 32 - 2 ^ 31

/-- i64 wrap-around of a mathematical integer. -/
def wrap64 (x : Int) : Int := (x + 2 ^ 63) % 2 ^ 64 - 2 ^ 63

theorem wsub64_of_le {x y : Nat} (h : y ≤ x) : wsub64 x y = x - y := by
  simp [wsub64, h]

theorem wrap32_eq_self {x : Int} (h1 : -(2 ^ 31) ≤ x) (h2 : x < 2 ^ 31) : wrap32 x = x := by
  unfold wrap32
  rw [Int.emod_eq_of_lt (by omega) (by omega)]
  omega

theorem wrap64_eq_self {x : Int} (h1 : -(2 ^ 63) ≤ x) (h2 : x < 2 ^ 63) : wrap64 x = x := by
  unfold wrap64
  rw [Int.emod_eq_of_lt (by omega) (by omega)]
  omega

end Rufs

namespace Rufs.FileData

/-!
## FileData: byte-granularity read/write over an inode
(`src/rufs/src/ufs/inode.rs`: `inode_read`, `inode_write`,
`inode_find_block`, `inode_get_block_size`, `inode_read_block`,
`inode_write_block`; `src/rufs/src/inode.rs`: `Inode::inode_size`).

The file-relative block storage is modelled as a partial map from the
file-relative block index (`blkidx`) to the block's byte contents;
`none` is a sparse hole.  The translation from `blkidx` to device
addresses is the IndirectMap layer (`inode_resolve_block` /
`inode_set_block`); distinct indices resolve to disjoint device blocks, so
that layer is modelled by keying the store on `blkidx` directly.
`inode_write_block` allocates a missing leaf via `blk_alloc`, whose body
is absent from this source snapshot (only its callers are present);
modelled from the spec: allocation yields a fresh block, which the store
represents by the slot for that index becoming present.
-/

/-- Filesystem geometry: block size `bs` and fragment size `fs`
(`superblock.bsize` / `superblock.fsize`). -/
structure Geo where
  bs : Nat
  fs : Nat

/-- Function `Inode::inode_size`: number of whole blocks and tail fragments a file of
`size` bytes needs: `(size / bs, (size % bs).div_ceil(fs))`. -/
def inode_size (bs fs size : Nat) : Nat × Nat :=
  (size / bs, (size % bs + fs - 1) / fs)

/-- Struct `BlockInfo`: a block index, the offset into the block,
and the block's size. -/
structure BlockInfo where
  blkidx : Nat
  off : Nat
  size : Nat
deriving DecidableEq, Repr

/-- Function `inode_find_block`: locate the block containing byte offset `offset` of a
file of `isize` bytes.  Panics (`panic!("out of bounds")`) past the last
slot. -/
def inode_find_block (g : Geo) (isize offset : Nat) : Outcome BlockInfo :=
  let blocks := (inode_size g.bs g.fs isize).1
  let frags := (inode_size g.bs g.fs isize).2
  if offset < g.bs * blocks then
    .ok ⟨offset / g.bs, offset % g.bs, g.bs⟩
  else if offset < g.bs * blocks + g.fs * frags then
    .ok ⟨blocks, offset % g.bs, frags * g.fs⟩
  else
    .panic

/-- Function `inode_get_block_size`: `bs` for interior blocks, `fs * frags` for the
tail slot, panic out of bounds. -/
def inode_get_block_size (g : Geo) (isize blkidx : Nat) : Outcome Nat :=
  let blocks := (inode_size g.bs g.fs isize).1
  let frags := (inode_size g.bs g.fs isize).2
  if blkidx < blocks then .ok g.bs
  else if blkidx < blocks + frags then .ok (g.fs * frags)
  else .panic

/-- File-relative block store: `blkidx` to block contents, `none` = hole. -/
def Store : Type := Nat → Option (Nat → Nat)

/-- Function `inode_read_block`: the bytes a read of block `blkidx` yields — the
stored contents, or zeros for a hole (`buf.fill(0u8)`). -/
def readBlock (store : Store) (blkidx : Nat) : Nat → Nat :=
  fun i => match store blkidx with
    | some c => c i
    | none => 0

/-- One `inode_write_block`: splice `num` bytes of `src` (starting at
`sboff`) into block `blkidx` at offset `off`.  The code first reads the
existing block (zeros on a hole), splices, and writes the whole buffer back,
allocating the leaf if absent, so the rest of the block keeps its previous
contents. -/
def writeStep (store : Store) (blkidx off num : Nat) (src : Nat → Nat) (sboff : Nat) : Store :=
  fun k =>
    if k = blkidx then
      some (fun i =>
        if off ≤ i ∧ i < off + num then src (sboff + (i - off))
        else readBlock store blkidx i)
    else store k

/-- The `while offset < end` loop of `inode_read`, with explicit fuel (the
loop advances by at least one byte per iteration, so `endo - offset` fuel
suffices).  `res` accumulates the output buffer. -/
def readGo (g : Geo) (store : Store) (isize : Nat) :
    Nat → (Nat → Nat) → Nat → Nat → Nat → Outcome ((Nat → Nat) × Nat)
  | 0, res, boff, offset, endo =>
    if endo ≤ offset then .ok (res, boff) else .panic
  | fuel + 1, res, boff, offset, endo =>
    if endo ≤ offset then .ok (res, boff)
    else
      match inode_find_block g isize offset with
      | .panic => .panic
      | .err e => .err e
      | .ok blk =>
        let num := min (blk.size - blk.off) (endo - offset)
        let content := readBlock store blk.blkidx
        let res' := fun i =>
          if boff ≤ i ∧ i < boff + num then content (blk.off + (i - boff)) else res i
        readGo g store isize fuel res' (boff + num) (offset + num) endo

/-- Function `inode_read(inr, offset, buffer)`: `len = buffer.len().min(size - offset)`
(u64 subtraction, wrapping when `offset > size`), then the copy loop.
Returns the bytes read and their count. -/
def inode_read (g : Geo) (isize : Nat) (store : Store) (offset buflen : Nat) :
    Outcome ((Nat → Nat) × Nat) :=
  let len := min buflen (wsub64 isize offset)
  let endo := (offset + len) % 2 ^ 64
  readGo g store isize len (fun _ => 0) 0 offset endo

/-- The `while offset < end` loop of `inode_write`, with explicit fuel. -/
def writeGo (g : Geo) (isize : Nat) :
    Nat → Store → (Nat → Nat) → Nat → Nat → Nat → Outcome (Store × Nat)
  | 0, store, _, boff, offset, endo =>
    if endo ≤ offset then .ok (store, boff) else .panic
  | fuel + 1, store, b, boff, offset, endo =>
    if endo ≤ offset then .ok (store, boff)
    else
      match inode_find_block g isize offset with
      | .panic => .panic
      | .err e => .err e
      | .ok blk =>
        let num := min (blk.size - blk.off) (endo - offset)
        let store' := writeStep store blk.blkidx blk.off num b boff
        writeGo g isize fuel store' b (boff + num) (offset + num) endo

/-- Function `inode_write(inr, offset, buffer)` on a writable engine: the size is
first extended to `max(size, offset + buffer.len())` and written back, then
the splice loop runs.  Returns the new size, the new store, and the byte
count written. -/
def inode_write (g : Geo) (isize : Nat) (store : Store) (offset : Nat)
    (b : Nat → Nat) (blen : Nat) : Outcome (Nat × Store × Nat) :=
  let isize' := max isize ((offset + blen) % 2 ^ 64)
  let len := min blen (wsub64 isize' offset)
  let endo := (offset + len) % 2 ^ 64
  match writeGo g isize' len store b 0 offset endo with
  | .ok (store', boff) => .ok (isize', store', boff)
  | .err e => .err e
  | .panic => .panic

end Rufs.FileData

namespace Rufs.FileData

/-! ### Slot geometry derived from `inode_find_block` (proof infrastructure) -/

/-- Whole-block count of a file of `isize` bytes (first component of
`inode_size`). -/
def blocksOf (g : Geo) (isize : Nat) : Nat := isize / g.bs

/-- Tail fragment count of a file of `isize` bytes (second component of
`inode_size`). -/
def fragsOf (g : Geo) (isize : Nat) : Nat := (isize % g.bs + g.fs - 1) / g.fs

/-- Total byte capacity of the slots of a file of `isize` bytes. -/
def cap (g : Geo) (isize : Nat) : Nat :=
  g.bs * blocksOf g isize + g.fs * fragsOf g isize

/-- Block index of the slot containing byte offset `o`. -/
def blkIdxOf (g : Geo) (isize o : Nat) : Nat :=
  if o < g.bs * blocksOf g isize then o / g.bs else blocksOf g isize

/-- Size of the slot containing byte offset `o`. -/
def slotSize (g : Geo) (isize o : Nat) : Nat :=
  if o < g.bs * blocksOf g isize then g.bs else fragsOf g isize * g.fs

/-- End offset (exclusive) of the slot containing byte offset `o`. -/
def slotEnd (g : Geo) (isize o : Nat) : Nat :=
  if o < g.bs * blocksOf g isize then g.bs * (o / g.bs) + g.bs else cap g isize

/-- Byte at file offset `o`, as the read path sees it. -/
def readAt (g : Geo) (isize : Nat) (store : Store) (o : Nat) : Nat :=
  readBlock store (blkIdxOf g isize o) (o % g.bs)

theorem mod_eq_sub_of_in_slot {bs q o : Nat} (h1 : bs * q ≤ o) (h2 : o < bs * q + bs) :
    o % bs = o - bs * q := by
  have h3 : o = bs * q + (o - bs * q) := by omega
  conv_lhs => rw [h3]
  rw [Nat.mul_add_mod]
  exact Nat.mod_eq_of_lt (by omega)

theorem fragsOf_mul_fs_le (g : Geo) (isize : Nat) (hbs : 0 < g.bs) (hfs : 0 < g.fs)
    (hdvd : g.fs ∣ g.bs) : fragsOf g isize * g.fs ≤ g.bs := by
  obtain ⟨k, hk⟩ := hdvd
  have hr : isize % g.bs < g.bs := Nat.mod_lt _ hbs
  have hr' : isize % g.bs < g.fs * k := by omega
  have h1 : fragsOf g isize ≤ k := by
    have h2 : isize % g.bs + g.fs - 1 ≤ g.fs * k + (g.fs - 1) := by omega
    have h3 := Nat.div_le_div_right (c := g.fs) h2
    have h4 : (g.fs * k + (g.fs - 1)) / g.fs = k := by
      rw [Nat.mul_add_div hfs, Nat.div_eq_of_lt (by omega)]
      omega
    unfold fragsOf
    omega
  calc fragsOf g isize * g.fs ≤ k * g.fs := Nat.mul_le_mul_right _ h1
    _ = g.bs := by rw [Nat.mul_comm]; omega

theorem isize_le_cap (g : Geo) (isize : Nat) (hbs : 0 < g.bs) (hfs : 0 < g.fs) :
    isize ≤ cap g isize := by
  have h1 := Nat.div_add_mod isize g.bs
  have h2 : isize % g.bs ≤ g.fs * fragsOf g isize := by
    have h3 := Nat.div_add_mod (isize % g.bs + g.fs - 1) g.fs
    have h4 : (isize % g.bs + g.fs - 1) % g.fs < g.fs := Nat.mod_lt _ hfs
    unfold fragsOf
    omega
  unfold cap blocksOf
  omega

theorem find_ok (g : Geo) (isize o : Nat) (h : o < cap g isize) :
    inode_find_block g isize o =
      .ok ⟨blkIdxOf g isize o, o % g.bs, slotSize g isize o⟩ := by
  unfold cap at h
  unfold inode_find_block inode_size blkIdxOf slotSize
  by_cases h1 : o < g.bs * (isize / g.bs)
  · simp only [blocksOf, fragsOf] at *
    rw [if_pos h1, if_pos h1, if_pos h1]
  · simp only [blocksOf, fragsOf] at *
    rw [if_neg h1, if_neg h1, if_neg h1, if_pos (by omega)]

theorem offIn_lt_slotSize (g : Geo) (isize o : Nat) (hbs : 0 < g.bs) (hfs : 0 < g.fs)
    (hdvd : g.fs ∣ g.bs) (h : o < cap g isize) : o % g.bs < slotSize g isize o := by
  by_cases h1 : o < g.bs * blocksOf g isize
  · rw [slotSize, if_pos h1]
    exact Nat.mod_lt o hbs
  · rw [slotSize, if_neg h1]
    have hle := fragsOf_mul_fs_le g isize hbs hfs hdvd
    unfold cap at h
    have hcm : g.fs * fragsOf g isize = fragsOf g isize * g.fs := Nat.mul_comm _ _
    have hmo : o % g.bs = o - g.bs * blocksOf g isize :=
      mod_eq_sub_of_in_slot (by omega) (by omega)
    omega

theorem blkIdxOf_mono (g : Geo) (isize : Nat) {u v : Nat} (hbs : 0 < g.bs) (h : u ≤ v) :
    blkIdxOf g isize u ≤ blkIdxOf g isize v := by
  unfold blkIdxOf
  by_cases h1 : u < g.bs * blocksOf g isize
  · by_cases h2 : v < g.bs * blocksOf g isize
    · rw [if_pos h1, if_pos h2]
      exact Nat.div_le_div_right h
    · rw [if_pos h1, if_neg h2]
      have h3 : u / g.bs < blocksOf g isize := by
        rw [Nat.div_lt_iff_lt_mul hbs, Nat.mul_comm]
        exact h1
      omega
  · have h2 : ¬ v < g.bs * blocksOf g isize := by omega
    rw [if_neg h1, if_neg h2]

theorem blkIdxOf_lt_of_slotEnd_le (g : Geo) (isize o u : Nat) (hbs : 0 < g.bs)
    (hd : o < g.bs * blocksOf g isize) (h : slotEnd g isize o ≤ u) :
    blkIdxOf g isize o < blkIdxOf g isize u := by
  rw [slotEnd, if_pos hd] at h
  have hob : o / g.bs < blocksOf g isize := by
    rw [Nat.div_lt_iff_lt_mul hbs, Nat.mul_comm]
    exact hd
  rw [blkIdxOf, if_pos hd, blkIdxOf]
  by_cases h2 : u < g.bs * blocksOf g isize
  · rw [if_pos h2]
    have h3 : o / g.bs + 1 ≤ u / g.bs := by
      rw [Nat.le_div_iff_mul_le hbs]
      have h4 : (o / g.bs + 1) * g.bs = g.bs * (o / g.bs) + g.bs := by ring
      omega
    omega
  · rw [if_neg h2]
    exact hob

theorem same_slot (g : Geo) (isize o u : Nat) (hbs : 0 < g.bs) (hfs : 0 < g.fs)
    (hdvd : g.fs ∣ g.bs) (hcap : o < cap g isize) (h1 : o ≤ u) (h2 : u < slotEnd g isize o) :
    blkIdxOf g isize u = blkIdxOf g isize o ∧ u % g.bs = o % g.bs + (u - o) := by
  by_cases hd : o < g.bs * blocksOf g isize
  · rw [slotEnd, if_pos hd] at h2
    have hq1 : g.bs * (o / g.bs) ≤ o := Nat.mul_div_le o g.bs
    have hob : o / g.bs < blocksOf g isize := by
      rw [Nat.div_lt_iff_lt_mul hbs, Nat.mul_comm]
      exact hd
    have hub : u < g.bs * blocksOf g isize := by
      have h5 : g.bs * (o / g.bs + 1) ≤ g.bs * blocksOf g isize := Nat.mul_le_mul_left _ hob
      have h6 : g.bs * (o / g.bs + 1) = g.bs * (o / g.bs) + g.bs := by ring
      omega
    have hdivu : u / g.bs = o / g.bs := by
      have h7 : o / g.bs ≤ u / g.bs := Nat.div_le_div_right h1
      have h8 : u / g.bs < o / g.bs + 1 := by
        rw [Nat.div_lt_iff_lt_mul hbs]
        have h9 : (o / g.bs + 1) * g.bs = g.bs * (o / g.bs) + g.bs := by ring
        omega
      omega
    constructor
    · rw [blkIdxOf, if_pos hub, blkIdxOf, if_pos hd, hdivu]
    · have hmo := Nat.div_add_mod o g.bs
      have hmu := Nat.div_add_mod u g.bs
      rw [hdivu] at hmu
      omega
  · rw [slotEnd, if_neg hd] at h2
    have hle := fragsOf_mul_fs_le g isize hbs hfs hdvd
    have hcm : g.fs * fragsOf g isize = fragsOf g isize * g.fs := Nat.mul_comm _ _
    unfold cap at hcap h2
    have hu2 : ¬ u < g.bs * blocksOf g isize := by omega
    have hmo : o % g.bs = o - g.bs * blocksOf g isize :=
      mod_eq_sub_of_in_slot (by omega) (by omega)
    have hmu : u % g.bs = u - g.bs * blocksOf g isize :=
      mod_eq_sub_of_in_slot (by omega) (by omega)
    constructor
    · rw [blkIdxOf, if_neg hu2, blkIdxOf, if_neg hd]
    · omega

theorem slotEnd_facts (g : Geo) (isize o : Nat) (hbs : 0 < g.bs) (hfs : 0 < g.fs)
    (hdvd : g.fs ∣ g.bs) (h : o < cap g isize) :
    o < slotEnd g isize o ∧ slotEnd g isize o ≤ cap g isize ∧
      slotEnd g isize o - o = slotSize g isize o - o % g.bs := by
  by_cases hd : o < g.bs * blocksOf g isize
  · rw [slotEnd, if_pos hd, slotSize, if_pos hd]
    have hdm := Nat.div_add_mod o g.bs
    have hmod := Nat.mod_lt o hbs
    have hob : o / g.bs < blocksOf g isize := by
      rw [Nat.div_lt_iff_lt_mul hbs, Nat.mul_comm]
      exact hd
    have hce : g.bs * (o / g.bs) + g.bs ≤ g.bs * blocksOf g isize := by
      have h5 : g.bs * (o / g.bs + 1) ≤ g.bs * blocksOf g isize := Nat.mul_le_mul_left _ hob
      have h6 : g.bs * (o / g.bs + 1) = g.bs * (o / g.bs) + g.bs := by ring
      omega
    unfold cap
    omega
  · rw [slotEnd, if_neg hd, slotSize, if_neg hd]
    have hle := fragsOf_mul_fs_le g isize hbs hfs hdvd
    have hcm : g.fs * fragsOf g isize = fragsOf g isize * g.fs := Nat.mul_comm _ _
    unfold cap at *
    have hmo : o % g.bs = o - g.bs * blocksOf g isize :=
      mod_eq_sub_of_in_slot (by omega) (by omega)
    omega

theorem writeGo_stop (g : Geo) (isize fuel : Nat) (store : Store) (b : Nat → Nat)
    (boff offset endo : Nat) (h : endo ≤ offset) :
    writeGo g isize fuel store b boff offset endo = .ok (store, boff) := by
  cases fuel <;> simp [writeGo, h]

theorem readGo_stop (g : Geo) (store : Store) (isize fuel : Nat) (res : Nat → Nat)
    (boff offset endo : Nat) (h : endo ≤ offset) :
    readGo g store isize fuel res boff offset endo = .ok (res, boff) := by
  cases fuel <;> simp [readGo, h]

theorem readBlock_congr {store store2 : Store} (blkidx : Nat)
    (h : store blkidx = store2 blkidx) (i : Nat) :
    readBlock store blkidx i = readBlock store2 blkidx i := by
  unfold readBlock
  rw [h]

theorem readBlock_writeStep_self (store : Store) (blkidx off num : Nat) (src : Nat → Nat)
    (sboff i : Nat) (h1 : off ≤ i) (h2 : i < off + num) :
    readBlock (writeStep store blkidx off num src sboff) blkidx i =
      src (sboff + (i - off)) := by
  have hw : writeStep store blkidx off num src sboff blkidx = some (fun j =>
      if off ≤ j ∧ j < off + num then src (sboff + (j - off)) else readBlock store blkidx j) := by
    unfold writeStep
    rw [if_pos rfl]
  simp [readBlock, hw, h1, h2]

theorem writeStep_other (store : Store) (blkidx off num : Nat) (src : Nat → Nat)
    (sboff k : Nat) (h : k ≠ blkidx) :
    writeStep store blkidx off num src sboff k = store k := by
  unfold writeStep
  rw [if_neg h]

theorem writeGo_spec (g : Geo) (isize : Nat) (hbs : 0 < g.bs) (hfs : 0 < g.fs)
    (hdvd : g.fs ∣ g.bs) (b : Nat → Nat) (endo : Nat) (hcap : endo ≤ cap g isize) :
    ∀ fuel o boff store, o ≤ endo → endo - o ≤ fuel →
      ∃ store', writeGo g isize fuel store b boff o endo = .ok (store', boff + (endo - o)) ∧
        (∀ k, k < blkIdxOf g isize o → store' k = store k) ∧
        (∀ u, o ≤ u → u < endo → readAt g isize store' u = b (boff + (u - o))) := by
  intro fuel
  induction fuel with
  | zero =>
    intro o boff store ho hfuel
    have heq : o = endo := by omega
    subst heq
    refine ⟨store, ?_, fun k _ => rfl, fun u hu1 hu2 => by omega⟩
    rw [writeGo_stop g isize 0 store b boff o o le_rfl]
    have h0 : o - o = 0 := by omega
    rw [h0, Nat.add_zero]
  | succ fuel ih =>
    intro o boff store ho hfuel
    by_cases hoe : endo ≤ o
    · have heq : o = endo := by omega
      subst heq
      refine ⟨store, ?_, fun k _ => rfl, fun u hu1 hu2 => by omega⟩
      rw [writeGo_stop g isize (fuel + 1) store b boff o o le_rfl]
      have h0 : o - o = 0 := by omega
      rw [h0, Nat.add_zero]
    · push_neg at hoe
      have hocap : o < cap g isize := lt_of_lt_of_le hoe hcap
      have hfind := find_ok g isize o hocap
      have hoff := offIn_lt_slotSize g isize o hbs hfs hdvd hocap
      obtain ⟨hse1, hse2, hse3⟩ := slotEnd_facts g isize o hbs hfs hdvd hocap
      have hred : writeGo g isize (fuel + 1) store b boff o endo =
          writeGo g isize fuel
            (writeStep store (blkIdxOf g isize o) (o % g.bs)
              (min (slotSize g isize o - o % g.bs) (endo - o)) b boff) b
            (boff + min (slotSize g isize o - o % g.bs) (endo - o))
            (o + min (slotSize g isize o - o % g.bs) (endo - o)) endo := by
        rw [writeGo, if_neg (by omega), hfind]
      set N := min (slotSize g isize o - o % g.bs) (endo - o) with hN
      have hN1 : 1 ≤ N := by omega
      have hON : o + N = min (slotEnd g isize o) endo := by omega
      by_cases hA : endo ≤ slotEnd g isize o
      · have hfin : o + N = endo := by omega
        refine ⟨writeStep store (blkIdxOf g isize o) (o % g.bs) N b boff, ?_, ?_, ?_⟩
        · rw [hred, writeGo_stop _ _ _ _ _ _ _ _ (by omega)]
          have h1 : boff + N = boff + (endo - o) := by omega
          rw [h1]
        · intro k hk
          exact writeStep_other store _ _ _ b boff k (Nat.ne_of_lt hk)
        · intro u hu1 hu2
          have hus : u < slotEnd g isize o := by omega
          obtain ⟨hbe, hme⟩ := same_slot g isize o u hbs hfs hdvd hocap hu1 hus
          unfold readAt
          rw [hbe, hme]
          rw [readBlock_writeStep_self store _ _ _ b boff _ (by omega) (by omega)]
          congr 1
          omega
      · push_neg at hA
        have hfin : o + N = slotEnd g isize o := by omega
        have hdir : o < g.bs * blocksOf g isize := by
          by_contra hnd
          have h1 : slotEnd g isize o = cap g isize := by rw [slotEnd, if_neg hnd]
          omega
        have hblt : blkIdxOf g isize o < blkIdxOf g isize (o + N) :=
          blkIdxOf_lt_of_slotEnd_le g isize o (o + N) hbs hdir (by omega)
        obtain ⟨store', hrun, hframe, hcontent⟩ :=
          ih (o + N) (boff + N)
            (writeStep store (blkIdxOf g isize o) (o % g.bs) N b boff)
            (by omega) (by omega)
        refine ⟨store', ?_, ?_, ?_⟩
        · rw [hred, hrun]
          have h1 : boff + N + (endo - (o + N)) = boff + (endo - o) := by omega
          rw [h1]
        · intro k hk
          rw [hframe k (lt_trans hk hblt)]
          exact writeStep_other store _ _ _ b boff k (Nat.ne_of_lt hk)
        · intro u hu1 hu2
          by_cases hcase : u < o + N
          · have hus : u < slotEnd g isize o := by omega
            obtain ⟨hbe, hme⟩ := same_slot g isize o u hbs hfs hdvd hocap hu1 hus
            unfold readAt
            rw [hbe, hme]
            rw [readBlock_congr (blkIdxOf g isize o) (hframe _ hblt) _]
            rw [readBlock_writeStep_self store _ _ _ b boff _ (by omega) (by omega)]
            congr 1
            omega
          · have h1 := hcontent u (by omega) hu2
            rw [h1]
            congr 1
            omega

theorem readGo_spec (g : Geo) (isize : Nat) (hbs : 0 < g.bs) (hfs : 0 < g.fs)
    (hdvd : g.fs ∣ g.bs) (store : Store) (endo : Nat) (hcap : endo ≤ cap g isize) :
    ∀ fuel o boff res, o ≤ endo → endo - o ≤ fuel →
      ∃ res', readGo g store isize fuel res boff o endo = .ok (res', boff + (endo - o)) ∧
        (∀ i, i < boff → res' i = res i) ∧
        (∀ i, boff ≤ i → i < boff + (endo - o) →
          res' i = readAt g isize store (o + (i - boff))) := by
  intro fuel
  induction fuel with
  | zero =>
    intro o boff res ho hfuel
    have heq : o = endo := by omega
    subst heq
    refine ⟨res, ?_, fun i _ => rfl, fun i hi1 hi2 => by omega⟩
    rw [readGo_stop g store isize 0 res boff o o le_rfl]
    have h0 : o - o = 0 := by omega
    rw [h0, Nat.add_zero]
  | succ fuel ih =>
    intro o boff res ho hfuel
    by_cases hoe : endo ≤ o
    · have heq : o = endo := by omega
      subst heq
      refine ⟨res, ?_, fun i _ => rfl, fun i hi1 hi2 => by omega⟩
      rw [readGo_stop g store isize (fuel + 1) res boff o o le_rfl]
      have h0 : o - o = 0 := by omega
      rw [h0, Nat.add_zero]
    · push_neg at hoe
      have hocap : o < cap g isize := lt_of_lt_of_le hoe hcap
      have hfind := find_ok g isize o hocap
      have hoff := offIn_lt_slotSize g isize o hbs hfs hdvd hocap
      obtain ⟨hse1, hse2, hse3⟩ := slotEnd_facts g isize o hbs hfs hdvd hocap
      have hred : readGo g store isize (fuel + 1) res boff o endo =
          readGo g store isize fuel
            (fun i =>
              if boff ≤ i ∧ i < boff + min (slotSize g isize o - o % g.bs) (endo - o) then
                readBlock store (blkIdxOf g isize o) (o % g.bs + (i - boff))
              else res i)
            (boff + min (slotSize g isize o - o % g.bs) (endo - o))
            (o + min (slotSize g isize o - o % g.bs) (endo - o)) endo := by
        rw [readGo, if_neg (by omega), hfind]
      set N := min (slotSize g isize o - o % g.bs) (endo - o) with hN
      have hNle1 : N ≤ slotSize g isize o - o % g.bs := Nat.min_le_left _ _
      have hNle2 : N ≤ endo - o := Nat.min_le_right _ _
      have hN1 : 1 ≤ N := by omega
      have hslot : o + N ≤ slotEnd g isize o := by
        have h1 := hse1
        have h2 := hse3
        omega
      obtain ⟨res', hrun, hkeep, hcontent⟩ :=
        ih (o + N) (boff + N)
          (fun i =>
            if boff ≤ i ∧ i < boff + N then
              readBlock store (blkIdxOf g isize o) (o % g.bs + (i - boff))
            else res i)
          (by omega) (by omega)
      refine ⟨res', ?_, ?_, ?_⟩
      · rw [hred, hrun]
        have h1 : boff + N + (endo - (o + N)) = boff + (endo - o) := by omega
        rw [h1]
      · intro i hi
        rw [hkeep i (by omega)]
        rw [if_neg (by omega)]
      · intro i hi1 hi2
        by_cases hcase : i < boff + N
        · rw [hkeep i (by omega), if_pos ⟨hi1, hcase⟩]
          have hus : o + (i - boff) < slotEnd g isize o := by omega
          obtain ⟨hbe, hme⟩ :=
            same_slot g isize o (o + (i - boff)) hbs hfs hdvd hocap (by omega) hus
          unfold readAt
          rw [hbe, hme]
          have harg : o + (i - boff) - o = i - boff := by omega
          rw [harg]
        · have harg : o + N + (i - (boff + N)) = o + (i - boff) := by omega
          rw [hcontent i (by omega) (by omega), harg]

/-- Projection: the byte count an `inode_read` model call returned, when it
returned normally. -/
def retLen (o : Outcome ((Nat → Nat) × Nat)) : Option Nat :=
  match o with
  | .ok (_, n) => some n
  | .err _ => none
  | .panic => none

/-- Projection: byte `i` of the buffer an `inode_read` model call filled,
when it returned normally. -/
def retByte (o : Outcome ((Nat → Nat) × Nat)) (i : Nat) : Option Nat :=
  match o with
  | .ok (f, _) => some (f i)
  | .err _ => none
  | .panic => none

/-- C1: for every file state, every offset and every buffer `b` of length
`blen`, `inode_write(inr, offset, b)` succeeds writing `blen` bytes, and a
following `inode_read(inr, offset, buf)` with a buffer of length `blen`
succeeds and yields exactly the bytes of `b`.  (The write first extends the
file size to cover the written range, so the read is in bounds.) -/
theorem c1_write_read_roundtrip (g : Geo) (isize : Nat) (store : Store) (offset blen : Nat)
    (b : Nat → Nat) (hbs : 0 < g.bs) (hfs : 0 < g.fs) (hdvd : g.fs ∣ g.bs)
    (hov : offset + blen < 2 ^ 64) :
    ∃ isize' store' res,
      inode_write g isize store offset b blen = .ok (isize', store', blen) ∧
      inode_read g isize' store' offset blen = .ok (res, blen) ∧
      ∀ i, i < blen → res i = b i := by
  have hm : (offset + blen) % 2 ^ 64 = offset + blen := Nat.mod_eq_of_lt hov
  have hK : offset + blen ≤ max isize (offset + blen) := le_max_right _ _
  have hws : wsub64 (max isize (offset + blen)) offset = max isize (offset + blen) - offset :=
    wsub64_of_le (by omega)
  have hlen : min blen (max isize (offset + blen) - offset) = blen := by omega
  have hcap1 : offset + blen ≤ cap g (max isize (offset + blen)) :=
    le_trans hK (isize_le_cap g _ hbs hfs)
  obtain ⟨store', hwrun, _, hwcontent⟩ :=
    writeGo_spec g (max isize (offset + blen)) hbs hfs hdvd b (offset + blen) hcap1
      blen offset 0 store (Nat.le_add_right _ _) (by omega)
  obtain ⟨res, hrrun, _, hrcontent⟩ :=
    readGo_spec g (max isize (offset + blen)) hbs hfs hdvd store' (offset + blen) hcap1
      blen offset 0 (fun _ => 0) (Nat.le_add_right _ _) (by omega)
  have hb0 : 0 + (offset + blen - offset) = blen := by omega
  refine ⟨max isize (offset + blen), store', res, ?_, ?_, ?_⟩
  · show (match writeGo g (max isize ((offset + blen) % 2 ^ 64))
        (min blen (wsub64 (max isize ((offset + blen) % 2 ^ 64)) offset)) store b 0 offset
        ((offset + min blen (wsub64 (max isize ((offset + blen) % 2 ^ 64)) offset)) % 2 ^ 64) with
      | .ok (store', boff) => Outcome.ok (max isize ((offset + blen) % 2 ^ 64), store', boff)
      | .err e => Outcome.err e
      | .panic => Outcome.panic) = Outcome.ok (max isize (offset + blen), store', blen)
    rw [hm, hws, hlen, hm, hwrun, hb0]
  · show readGo g store' (max isize (offset + blen))
        (min blen (wsub64 (max isize (offset + blen)) offset)) (fun _ => 0) 0 offset
        ((offset + min blen (wsub64 (max isize (offset + blen)) offset)) % 2 ^ 64) =
      Outcome.ok (res, blen)
    rw [hws, hlen, hm, hrrun, hb0]
  · intro i hi
    rw [hrcontent i (Nat.zero_le _) (by omega)]
    rw [hwcontent (offset + (i - 0)) (by omega) (by omega)]
    congr 1
    omega

/-- C1 witness: a concrete write of three bytes at offset 5 into an empty
file with a 16-byte block size and 8-byte fragment size, read back. -/
theorem c1_write_read_roundtrip_witness :
    0 < (16 : Nat) ∧ 0 < (8 : Nat) ∧ (8 : Nat) ∣ 16 ∧ (5 : Nat) + 3 < 2 ^ 64 ∧
    ∃ isize' store' res,
      inode_write ⟨16, 8⟩ 0 (fun _ => none) 5 (fun i => i + 10) 3 = .ok (isize', store', 3) ∧
      inode_read ⟨16, 8⟩ isize' store' 5 3 = .ok (res, 3) ∧
      ∀ i, i < 3 → res i = (fun i => i + 10) i :=
  ⟨by decide, by decide, by decide, by norm_num,
    c1_write_read_roundtrip ⟨16, 8⟩ 0 (fun _ => none) 5 3 (fun i => i + 10)
      (by decide) (by decide) (by decide) (by norm_num)⟩

/-- C6 (amended): for every valid inode and every offset at or before the
end of the file, `inode_read` returns exactly `min buflen (size - offset)`
bytes — at most the buffer length and at most `size - offset`; a read
starting exactly at the end of the file returns 0 bytes. -/
theorem c6_read_bounded (g : Geo) (isize : Nat) (store : Store) (offset buflen : Nat)
    (hbs : 0 < g.bs) (hfs : 0 < g.fs) (hdvd : g.fs ∣ g.bs) (hsz : isize < 2 ^ 64)
    (hoff : offset ≤ isize) :
    ∃ res, inode_read g isize store offset buflen = .ok (res, min buflen (isize - offset)) ∧
      min buflen (isize - offset) ≤ buflen ∧
      min buflen (isize - offset) ≤ isize - offset := by
  have hws : wsub64 isize offset = isize - offset := wsub64_of_le hoff
  have hend : offset + min buflen (isize - offset) ≤ isize := by omega
  have hm : (offset + min buflen (isize - offset)) % 2 ^ 64 =
      offset + min buflen (isize - offset) := Nat.mod_eq_of_lt (by omega)
  have hcap1 : offset + min buflen (isize - offset) ≤ cap g isize :=
    le_trans hend (isize_le_cap g isize hbs hfs)
  obtain ⟨res, hrun, _, _⟩ :=
    readGo_spec g isize hbs hfs hdvd store (offset + min buflen (isize - offset)) hcap1
      (min buflen (isize - offset)) offset 0 (fun _ => 0) (Nat.le_add_right _ _) (by omega)
  refine ⟨res, ?_, Nat.min_le_left _ _, Nat.min_le_right _ _⟩
  show readGo g store isize (min buflen (wsub64 isize offset)) (fun _ => 0) 0 offset
      ((offset + min buflen (wsub64 isize offset)) % 2 ^ 64) =
    Outcome.ok (res, min buflen (isize - offset))
  rw [hws, hm, hrun]
  have h0 : 0 + (offset + min buflen (isize - offset) - offset) = min buflen (isize - offset) := by
    omega
  rw [h0]

/-- C6 witness: reading 4 bytes at offset 0 of a 1-byte file returns 1 byte;
reading at offset 1 (exactly the end) returns 0 bytes. -/
theorem c6_read_bounded_witness :
    0 < (16 : Nat) ∧ 0 < (8 : Nat) ∧ (8 : Nat) ∣ 16 ∧ (1 : Nat) < 2 ^ 64 ∧ (0 : Nat) ≤ 1 ∧
    ∃ res, inode_read ⟨16, 8⟩ 1 (fun _ => none) 0 4 = .ok (res, min 4 (1 - 0)) ∧
      min 4 (1 - 0) ≤ 4 ∧ min 4 (1 - 0) ≤ 1 - 0 :=
  ⟨by decide, by decide, by decide, by norm_num, by decide,
    c6_read_bounded ⟨16, 8⟩ 1 (fun _ => none) 0 4 (by decide) (by decide) (by decide)
      (by norm_num) (by decide)⟩

/-- A concrete store whose every block holds the byte 7 everywhere: the
stale device contents a read past the logical end of the file exposes. -/
def c6store : Store := fun _ => some (fun _ => 7)

/-- C6 counterexample: in a 1-byte file (block size 16, fragment size 8),
`inode_read` at offset 2 — strictly past the end of the file — with a
1-byte buffer returns 1 byte (the stale device byte 7), not 0 bytes: the
u64 computation `size - offset` wraps around, so the claimed bounds
`n ≤ buf.len() ∧ n ≤ size - off` and the `0 bytes at or past EOF` behavior
fail for offsets beyond the end. -/
theorem c6_read_past_eof_counterexample :
    retLen (inode_read ⟨16, 8⟩ 1 c6store 2 1) = some 1 ∧
    retByte (inode_read ⟨16, 8⟩ 1 c6store 2 1) 0 = some 7 ∧
    ¬ retLen (inode_read ⟨16, 8⟩ 1 c6store 2 1) = some 0 := by
  refine ⟨by decide, by decide, by decide⟩

end Rufs.FileData

namespace Rufs.Balloc

/-!
## BlockAlloc: the free-fragment bitmap and `blk_free`
(`src/rufs/src/ufs/balloc.rs`; counters also `update_sb` in
`src/rufs/src/ufs/mod.rs`).

The state keeps the per-cylinder-group free-fragment bitmap as bytes
(`bitmap cgi h` is the u8 the source reads at `cgo + freeoff + h`), the
per-CG counter block `cg.cs`, and the superblock totals `cstotal`.
Counter fields are i32 (CG) and i64 (superblock); increments wrap
explicitly.  The u8 complement `!mask` is written `255 ^^^ mask`.
-/

open Rufs

/-- Per-cylinder-group counters `cg.cs` (i32 fields). -/
structure CgCs where
  nbfree : Int
  nffree : Int
  nifree : Int
  ndir : Int
deriving DecidableEq, Repr

/-- Superblock totals `sb.cstotal` (i64 fields). -/
structure SbCs where
  nbfree : Int
  nffree : Int
  nifree : Int
  ndir : Int
deriving DecidableEq, Repr

/-- The superblock geometry fields `blk_free` reads. -/
structure SbGeo where
  fsize : Nat
  bsize : Nat
  fpg : Nat
  frag : Nat
deriving DecidableEq, Repr

/-- Engine state as the allocator sees it: the rw flag, the per-CG
free-fragment bitmap bytes, the per-CG counters and the superblock
totals. -/
structure BState where
  rw : Bool
  bitmap : Nat → Nat → Nat
  cg : Nat → CgCs
  sb : SbCs

/-- Function `assert_rw`: EROFS unless the engine is writable. -/
def assert_rw (st : BState) : Outcome Unit :=
  if st.rw then .ok () else .err .EROFS

/-- Function `cg_isfreefrag`: bit `bno % 8` of bitmap byte `bno / 8`. -/
def cg_isfreefrag (st : BState) (cgi bno : Nat) : Bool :=
  let mask := 1 <<< (bno % 8)
  st.bitmap cgi (bno / 8) &&& mask == mask

/-- Function `cg_setfrag`: set (free) or clear the fragment bit. -/
def cg_setfrag (st : BState) (cgi bno : Nat) (free : Bool) : BState :=
  let mask := 1 <<< (bno % 8)
  let b := st.bitmap cgi (bno / 8)
  let bNew := if free then b ||| mask else b &&& (255 ^^^ mask)
  { st with bitmap := fun ci h =>
      if ci = cgi ∧ h = bno / 8 then bNew else st.bitmap ci h }

/-- Function `cg_isfreeblock` (ffs_isblock): are all `frag` fragment bits of
the block containing fragment `bno` set?  Panics (`unreachable!`) unless
`frag` is 1, 2, 4 or 8. -/
def cg_isfreeblock (g : SbGeo) (st : BState) (cgi bno : Nat) : Outcome Bool :=
  let h := bno / g.frag
  if g.frag = 8 then .ok (st.bitmap cgi h == 0xff)
  else if g.frag = 4 then
    let mask := 0x0f <<< ((h &&& 0x01) <<< 2)
    .ok (st.bitmap cgi (h >>> 1) &&& mask == mask)
  else if g.frag = 2 then
    let mask := 0x03 <<< ((h &&& 0x03) <<< 1)
    .ok (st.bitmap cgi (h >>> 2) &&& mask == mask)
  else if g.frag = 1 then
    let mask := 0x01 <<< ((h &&& 0x07) <<< 0)
    .ok (st.bitmap cgi (h >>> 3) &&& mask == mask)
  else .panic

/-- Function `cg_isfullblock` (ffs_isfreeblock): are all `frag` fragment
bits of the block containing fragment `bno` clear? -/
def cg_isfullblock (g : SbGeo) (st : BState) (cgi bno : Nat) : Outcome Bool :=
  let h := bno / g.frag
  if g.frag = 8 then .ok (st.bitmap cgi h == 0)
  else if g.frag = 4 then .ok (st.bitmap cgi (h >>> 1) &&& (0x0f <<< ((h &&& 0x01) <<< 2)) == 0)
  else if g.frag = 2 then .ok (st.bitmap cgi (h >>> 2) &&& (0x03 <<< ((h &&& 0x03) <<< 1)) == 0)
  else if g.frag = 1 then .ok (st.bitmap cgi (h >>> 3) &&& (0x01 <<< ((h &&& 0x07) <<< 0)) == 0)
  else .panic

/-- Function `cg_setblock` (ffs_setblock / ffs_clrblock): set or clear all
`frag` fragment bits of the block containing fragment `bno`. -/
def cg_setblock (g : SbGeo) (st : BState) (cgi bno : Nat) (free : Bool) : Outcome BState :=
  let h := bno / g.frag
  let cp := fun (hb x : Nat) =>
    let old := st.bitmap cgi hb
    let bNew := if free then old ||| x else old &&& (255 ^^^ x)
    { st with bitmap := fun ci j =>
        if ci = cgi ∧ j = hb then bNew else st.bitmap ci j }
  if g.frag = 8 then .ok (cp (h >>> 0) 0xff)
  else if g.frag = 4 then .ok (cp (h >>> 1) (0x0f <<< ((h &&& 0x01) <<< 2)))
  else if g.frag = 2 then .ok (cp (h >>> 2) (0x03 <<< ((h &&& 0x03) <<< 1)))
  else if g.frag = 1 then .ok (cp (h >>> 3) (0x01 <<< ((h &&& 0x07) <<< 0)))
  else .panic

/-- The `for i in 0..nfrag` loop of `blk_free`: panic on a fragment that is
already free (double-free), else set it free; fragments `bno`, `bno+1`, …
in order. -/
def free_frags_go (cgi : Nat) : Nat → Nat → BState → Outcome BState
  | _, 0, st => .ok st
  | bno, n + 1, st =>
    if cg_isfreefrag st cgi bno then .panic
    else free_frags_go cgi (bno + 1) n (cg_setfrag st cgi bno true)

/-- The full-block counter bump of `blk_free`: `cg.cs.nbfree += 1` and,
through `update_sb`, `sb.cstotal.nbfree += 1`. -/
def bump_nbfree (cgi : Nat) (st1 : BState) : BState :=
  { st1 with
    cg := fun i => if i = cgi then
        { st1.cg cgi with nbfree := wrap32 ((st1.cg cgi).nbfree + 1) }
      else st1.cg i,
    sb := { st1.sb with nbfree := wrap64 (st1.sb.nbfree + 1) } }

/-- The fragment counter bump of `blk_free`: `cg.cs.nffree += nfrag` and,
through `update_sb`, `sb.cstotal.nffree += nfrag`. -/
def bump_nffree (cgi nfrag : Nat) (st1 : BState) : BState :=
  { st1 with
    cg := fun i => if i = cgi then
        { st1.cg cgi with nffree := wrap32 ((st1.cg cgi).nffree + (nfrag : Int)) }
      else st1.cg i,
    sb := { st1.sb with nffree := wrap64 (st1.sb.nffree + (nfrag : Int)) } }

/-- The re-assembly rule of `blk_free`: the freed fragments completed a
free block, so `nffree -= frag` and `nbfree += 1`, in the CG counters and
in the superblock totals. -/
def reassemble (g : SbGeo) (cgi : Nat) (st2 : BState) : BState :=
  { st2 with
    cg := fun i => if i = cgi then
        { st2.cg cgi with
          nffree := wrap32 ((st2.cg cgi).nffree - (g.frag : Int)),
          nbfree := wrap32 ((st2.cg cgi).nbfree + 1) }
      else st2.cg i,
    sb := { st2.sb with
      nffree := wrap64 (st2.sb.nffree - (g.frag : Int)),
      nbfree := wrap64 (st2.sb.nbfree + 1) } }

/-- Function `blk_free(bno, size)` (ffs_blkfree): free a whole block or a
run of fragments, updating the CG counters and (through `update_sb`) the
superblock totals; panics on corruption (double-free). -/
def blk_free (g : SbGeo) (st : BState) (bno size : Nat) : Outcome BState :=
  match assert_rw st with
  | .err e => .err e
  | .panic => .panic
  | .ok _ =>
  if bno = 0 then .ok st
  else
  let fsize := g.fsize
  let bsize := g.bsize
  let nfrag := size / fsize
  let fpg := g.fpg
  let frag := g.frag
  if size = 0 then .panic
  else if ¬ size ≤ bsize then .panic
  else if ¬ size % fsize = 0 then .panic
  else if ¬ bno % bsize / fsize + nfrag ≤ frag then .panic
  else
  let cgi := bno / fpg
  let bno := bno % fpg
  if size = bsize then
    match cg_isfullblock g st cgi bno with
    | .panic => .panic
    | .err e => .err e
    | .ok full =>
      if ¬ full then .panic
      else
        match cg_setblock g st cgi bno true with
        | .panic => .panic
        | .err e => .err e
        | .ok st1 => .ok (bump_nbfree cgi st1)
  else
    match free_frags_go cgi bno nfrag st with
    | .panic => .panic
    | .err e => .err e
    | .ok st1 =>
      let st2 : BState := bump_nffree cgi nfrag st1
      match cg_isfreeblock g st2 cgi bno with
      | .panic => .panic
      | .err e => .err e
      | .ok full =>
        if full then .ok (reassemble g cgi st2)
        else .ok st2

end Rufs.Balloc

namespace Rufs.Balloc

/-- Concrete geometry for the allocator examples: fragment size 8, block
size 16, 16 fragments per group, 2 fragments per block. -/
def exGeo : SbGeo := ⟨8, 16, 16, 2⟩

/-- Concrete writable allocator state whose bitmap is all ones (every
fragment already free) and whose counters are zero. -/
def exAllFree : BState :=
  { rw := true
    bitmap := fun _ _ => 0xff
    cg := fun _ => ⟨0, 0, 0, 0⟩
    sb := ⟨0, 0, 0, 0⟩ }

/-- C10: freeing block number 0 (a sparse hole) is a no-op on a writable
engine: `blk_free(0, size)` returns Ok and the state — bitmaps, CG
counters, superblock totals — is exactly unchanged, for every `size`. -/
theorem c10_blk_free_zero_noop (g : SbGeo) (st : BState) (size : Nat)
    (hrw : st.rw = true) : blk_free g st 0 size = .ok st := by
  unfold blk_free assert_rw
  rw [hrw]
  simp

/-- C10 witness: freeing block 0 with size 8 (and with size 0) on a
concrete writable state returns the state unchanged. -/
theorem c10_blk_free_zero_noop_witness :
    exAllFree.rw = true ∧ blk_free exGeo exAllFree 0 8 = .ok exAllFree ∧
      blk_free exGeo exAllFree 0 0 = .ok exAllFree :=
  ⟨rfl, c10_blk_free_zero_noop exGeo exAllFree 8 rfl,
    c10_blk_free_zero_noop exGeo exAllFree 0 rfl⟩

/-- C5 counterexample: on a concrete state whose fragment bit is already
free, `blk_free(2, 8)` hits the `panic!("freeing free frag")` branch: the
call terminates the process (modelled `.panic`) instead of returning an
EIO error, contrary to the claim. -/
theorem c5_double_free_panics_not_eio :
    blk_free exGeo exAllFree 2 8 = .panic ∧
      ¬ blk_free exGeo exAllFree 2 8 = Outcome.err Err.EIO := by
  constructor
  · rfl
  · intro h
    rw [show blk_free exGeo exAllFree 2 8 = .panic from rfl] at h
    exact Outcome.noConfusion h

/-- Constant CG_MAGIC = 0x090255 (data.rs line 18). -/
def CG_MAGIC : Nat := 0x090255

/-- Engine state as `inode_free` sees it: the rw flag, the per-inode link
counts (u16), the per-CG inode-used bitmap bytes (the region at iusedoff),
the per-CG magic field, and the free-inode counters of the CGs (i32) and of
the superblock totals (i64). -/
structure IState where
  rw : Bool
  nlink : Nat → Nat
  ibitmap : Nat → Nat → Nat
  magic : Nat → Nat
  nifree_cg : Nat → Int
  nifree_sb : Int

/-- Function ino_in_cg: the cylinder group and in-group offset of an inode
number, inverting inode_alloc\'s `inr = cgi * ipg + i * 8 + j` (ialloc.rs
line 65; the Superblock helper itself is outside this snapshot). -/
def ino_in_cg (ipg inr : Nat) : Nat × Nat := (inr / ipg, inr % ipg)

/-- The u16 decrement `ino.nlink -= 1` of ialloc.rs line 184, wrapping at
zero. -/
def nlink_dec (st : IState) (inr : Nat) : Nat :=
  if st.nlink inr = 0 then 65535 else st.nlink inr - 1

/-- The write-back of the decremented link count (ialloc.rs line 185). -/
def write_nlink (st : IState) (inr : Nat) : IState :=
  { st with nlink := fun i => if i = inr then nlink_dec st inr else st.nlink i }

/-- The bitmap clear `b &= !mask` written back at ialloc.rs lines 213-214. -/
def clear_ibit (st : IState) (cgi cgo : Nat) : IState :=
  { st with ibitmap := fun ci h =>
      if ci = cgi ∧ h = cgo / 8 then
        st.ibitmap cgi (cgo / 8) &&& (255 ^^^ (1 <<< (cgo % 8)))
      else st.ibitmap ci h }

/-- The free-inode counter bumps of ialloc.rs lines 217-221: `cg.cs.nifree
+= 1` and, through update_sb, `sb.cstotal.nifree += 1`. -/
def bump_nifree (st : IState) (cgi : Nat) : IState :=
  { st with
    nifree_cg := fun i => if i = cgi then wrap32 (st.nifree_cg cgi + 1)
      else st.nifree_cg i,
    nifree_sb := wrap64 (st.nifree_sb + 1) }

/-- Function inode_free (ialloc.rs lines 181-244): assert_rw; decrement and
write back the link count; return Ok while links remain; panic on a bad CG
magic (line 203); panic when the inode-used bitmap bit is already clear
(lines 210-212, the use-after-free / double-free check); otherwise clear
the bit, bump the nifree counters, and release the inode\'s data blocks
(lines 223-241, going through blk_free and inode_free_l1..l3, abstracted
here as the continuation `freeData`). -/
def inode_free (ipg : Nat) (freeData : IState → Outcome IState) (st : IState)
    (inr : Nat) : Outcome IState :=
  if st.rw = false then .err .EROFS
  else if 0 < nlink_dec st inr then .ok (write_nlink st inr)
  else if ¬ (write_nlink st inr).magic (ino_in_cg ipg inr).1 = CG_MAGIC then
    .panic
  else if ¬ (write_nlink st inr).ibitmap (ino_in_cg ipg inr).1
      ((ino_in_cg ipg inr).2 / 8) &&& (1 <<< ((ino_in_cg ipg inr).2 % 8)) =
      1 <<< ((ino_in_cg ipg inr).2 % 8) then .panic
  else
    freeData (bump_nifree
      (clear_ibit (write_nlink st inr) (ino_in_cg ipg inr).1
        (ino_in_cg ipg inr).2)
      (ino_in_cg ipg inr).1)

/-- C5 (amended): each of the three runtime double-free detections panics
(terminating the process) rather than returning an error such as EIO:
freeing a whole block whose fragment bits are not all allocated
(`panic!("freeing free block")`), freeing a fragment whose bitmap bit is
already 1 (`panic!("freeing free frag")`), and clearing an inode-bitmap bit
that is already clear (the panic at ialloc.rs lines 210-212); the engine
does not repair. -/
theorem c5_double_free_panics (g : SbGeo) (st : BState) (bno size : Nat)
    (ipg : Nat) (freeData : IState → Outcome IState) (ist : IState) (inr : Nat)
    (hrw : st.rw = true) (hbno : bno ≠ 0)
    (hbs0 : g.bsize ≠ 0) (hbmod : g.bsize % g.fsize = 0)
    (hbassert : bno % g.bsize / g.fsize + g.bsize / g.fsize ≤ g.frag)
    (hnotfull : cg_isfullblock g st (bno / g.fpg) (bno % g.fpg) = .ok false)
    (hsz0 : size ≠ 0) (hsz1 : size ≤ g.bsize)
    (hsz2 : size ≠ g.bsize) (hmod : size % g.fsize = 0)
    (hassert : bno % g.bsize / g.fsize + size / g.fsize ≤ g.frag)
    (hnfrag : 0 < size / g.fsize)
    (hdf : cg_isfreefrag st (bno / g.fpg) (bno % g.fpg) = true)
    (hirw : ist.rw = true) (hnl : ist.nlink inr = 1)
    (hmagic : ist.magic (inr / ipg) = CG_MAGIC)
    (hbit : ¬ ist.ibitmap (inr / ipg) (inr % ipg / 8) &&&
      (1 <<< (inr % ipg % 8)) = 1 <<< (inr % ipg % 8)) :
    blk_free g st bno g.bsize = .panic ∧
    blk_free g st bno size = .panic ∧
    inode_free ipg freeData ist inr = .panic := by
  refine ⟨?_, ?_, ?_⟩
  · unfold blk_free assert_rw
    rw [hrw]
    simp only [if_true]
    rw [if_neg hbno, if_neg hbs0, if_neg (not_not_intro (le_refl g.bsize)),
      if_neg (not_not_intro hbmod), if_neg (not_not_intro hbassert)]
    show (match cg_isfullblock g st (bno / g.fpg) (bno % g.fpg) with
      | .panic => Outcome.panic
      | .err e => Outcome.err e
      | .ok full =>
        if ¬ full then Outcome.panic
        else
          match cg_setblock g st (bno / g.fpg) (bno % g.fpg) true with
          | .panic => Outcome.panic
          | .err e => Outcome.err e
          | .ok st1 => Outcome.ok (bump_nbfree (bno / g.fpg) st1)) = Outcome.panic
    rw [hnotfull]
    rfl
  · unfold blk_free assert_rw
    rw [hrw]
    simp only [if_true]
    rw [if_neg hbno, if_neg hsz0, if_neg (not_not_intro hsz1),
      if_neg (not_not_intro hmod), if_neg (not_not_intro hassert), if_neg hsz2]
    obtain ⟨n, hn⟩ : ∃ n, size / g.fsize = n + 1 := ⟨size / g.fsize - 1, by omega⟩
    rw [hn]
    show (match free_frags_go (bno / g.fpg) (bno % g.fpg) (n + 1) st with
      | .panic => Outcome.panic
      | .err e => Outcome.err e
      | .ok st1 => _) = Outcome.panic
    rw [free_frags_go, if_pos hdf]
  · unfold inode_free
    have h1 : nlink_dec ist inr = 0 := by unfold nlink_dec; rw [hnl]; norm_num
    rw [if_neg (by simp [hirw]), if_neg (by omega),
      if_neg (not_not_intro (by simp [write_nlink, ino_in_cg, hmagic])),
      if_pos (by simpa [write_nlink, ino_in_cg] using hbit)]

/-- Concrete inode_free state for the C5 witness: writable, every link
count 1, the inode-used bitmap all zeros (every bit already clear), valid
CG magic, zero counters. -/
def exIno : IState :=
  { rw := true
    nlink := fun _ => 1
    ibitmap := fun _ _ => 0
    magic := fun _ => CG_MAGIC
    nifree_cg := fun _ => 0
    nifree_sb := 0 }

/-- C5 witness for the amended claim: on the all-free bitmap, freeing block
16 as a whole block and freeing its first fragment both panic, and freeing
inode 3 (ipg = 8) whose bitmap bit is already clear panics. -/
theorem c5_double_free_panics_witness :
    exAllFree.rw = true ∧ (16 : Nat) ≠ 0 ∧ exGeo.bsize ≠ 0 ∧
      exGeo.bsize % exGeo.fsize = 0 ∧
      16 % exGeo.bsize / exGeo.fsize + exGeo.bsize / exGeo.fsize ≤ exGeo.frag ∧
      cg_isfullblock exGeo exAllFree (16 / exGeo.fpg) (16 % exGeo.fpg) = .ok false ∧
      (8 : Nat) ≠ 0 ∧ (8 : Nat) ≤ exGeo.bsize ∧ (8 : Nat) ≠ exGeo.bsize ∧
      (8 : Nat) % exGeo.fsize = 0 ∧
      16 % exGeo.bsize / exGeo.fsize + 8 / exGeo.fsize ≤ exGeo.frag ∧
      0 < 8 / exGeo.fsize ∧
      cg_isfreefrag exAllFree (16 / exGeo.fpg) (16 % exGeo.fpg) = true ∧
      exIno.rw = true ∧ exIno.nlink 3 = 1 ∧ exIno.magic (3 / 8) = CG_MAGIC ∧
      ¬ exIno.ibitmap (3 / 8) (3 % 8 / 8) &&& (1 <<< (3 % 8 % 8)) =
        1 <<< (3 % 8 % 8) ∧
      (blk_free exGeo exAllFree 16 exGeo.bsize = .panic ∧
       blk_free exGeo exAllFree 16 8 = .panic ∧
       inode_free 8 (fun s => .ok s) exIno 3 = .panic) :=
  ⟨rfl, by decide, by decide, by decide, by decide, by decide, by decide,
    by decide, by decide, by decide, by decide, by decide, by decide,
    rfl, rfl, rfl, by decide,
    c5_double_free_panics exGeo exAllFree 16 8 8 (fun s => .ok s) exIno 3
      rfl (by decide) (by decide) (by decide) (by decide) (by decide)
      (by decide) (by decide) (by decide) (by decide) (by decide) (by decide)
      (by decide) rfl rfl rfl (by decide)⟩

end Rufs.Balloc

namespace Rufs.Balloc

/-! ### Bit-level facts about the free-fragment bitmap -/

theorem and_eq_self_iff (x m : Nat) :
    x &&& m = m ↔ ∀ i, m.testBit i = true → x.testBit i = true := by
  constructor
  · intro h i hm
    have h2 := congrArg (fun t => t.testBit i) h
    simp only [Nat.testBit_land] at h2
    rw [hm] at h2
    simpa using h2
  · intro h
    apply Nat.eq_of_testBit_eq
    intro i
    rw [Nat.testBit_land]
    cases hm : m.testBit i
    · simp
    · simp [h i hm]

theorem isfreefrag_iff (st : BState) (cgi bno : Nat) :
    cg_isfreefrag st cgi bno = true ↔
      (st.bitmap cgi (bno / 8)).testBit (bno % 8) = true := by
  show (st.bitmap cgi (bno / 8) &&& (1 <<< (bno % 8)) == 1 <<< (bno % 8)) = true ↔ _
  simp only [beq_iff_eq, Nat.one_shiftLeft]
  rw [and_eq_self_iff]
  constructor
  · intro h
    exact h (bno % 8) Nat.testBit_two_pow_self
  · intro h i hi
    by_cases hik : bno % 8 = i
    · rw [← hik]
      exact h
    · rw [Nat.testBit_two_pow_of_ne hik] at hi
      exact absurd hi (by simp)

theorem isfreefrag_eq (st : BState) (cgi bno : Nat) :
    cg_isfreefrag st cgi bno = (st.bitmap cgi (bno / 8)).testBit (bno % 8) := by
  cases h : (st.bitmap cgi (bno / 8)).testBit (bno % 8)
  · cases h2 : cg_isfreefrag st cgi bno
    · rfl
    · rw [(isfreefrag_iff st cgi bno).mp h2] at h
      exact absurd h (by simp)
  · exact (isfreefrag_iff st cgi bno).mpr h

theorem isfreefrag_congr {st st2 : BState} (h : st.bitmap = st2.bitmap) (cgi bno : Nat) :
    cg_isfreefrag st cgi bno = cg_isfreefrag st2 cgi bno := by
  unfold cg_isfreefrag
  rw [h]

theorem isfreeblock_congr (g : SbGeo) {st st2 : BState} (h : st.bitmap = st2.bitmap)
    (cgi bno : Nat) : cg_isfreeblock g st cgi bno = cg_isfreeblock g st2 cgi bno := by
  unfold cg_isfreeblock
  rw [h]

theorem setfrag_rw (st : BState) (cgi bno : Nat) (free : Bool) :
    (cg_setfrag st cgi bno free).rw = st.rw := rfl

theorem setfrag_cg (st : BState) (cgi bno : Nat) (free : Bool) :
    (cg_setfrag st cgi bno free).cg = st.cg := rfl

theorem setfrag_sb (st : BState) (cgi bno : Nat) (free : Bool) :
    (cg_setfrag st cgi bno free).sb = st.sb := rfl

theorem setfrag_bitmap_other (st : BState) (cgi bno ci h : Nat) (free : Bool)
    (hne : ci ≠ cgi) : (cg_setfrag st cgi bno free).bitmap ci h = st.bitmap ci h := by
  show (if ci = cgi ∧ h = bno / 8 then _ else st.bitmap ci h) = st.bitmap ci h
  rw [if_neg (by exact fun hc => hne hc.1)]

theorem setfrag_testBit (st : BState) (cgi bno h j : Nat) (hj : j < 8) :
    ((cg_setfrag st cgi bno true).bitmap cgi h).testBit j =
      ((st.bitmap cgi h).testBit j || decide (8 * h + j = bno)) := by
  show ((if cgi = cgi ∧ h = bno / 8 then st.bitmap cgi (bno / 8) ||| (1 <<< (bno % 8))
      else st.bitmap cgi h).testBit j) = _
  by_cases hh : h = bno / 8
  · rw [if_pos ⟨rfl, hh⟩, Nat.one_shiftLeft, Nat.testBit_lor]
    subst hh
    by_cases he : 8 * (bno / 8) + j = bno
    · have hj2 : bno % 8 = j := by omega
      rw [hj2, Nat.testBit_two_pow_self]
      simp [he]
    · have hj2 : bno % 8 ≠ j := by omega
      rw [Nat.testBit_two_pow_of_ne hj2]
      simp [he]
  · rw [if_neg (by exact fun hc => hh hc.2)]
    have he : 8 * h + j ≠ bno := by
      intro hc
      exact hh (by omega)
    simp [he]

theorem setfrag_lt_256 (st : BState) (cgi bno h : Nat) (hb : st.bitmap cgi h < 256) :
    (cg_setfrag st cgi bno true).bitmap cgi h < 256 := by
  show (if cgi = cgi ∧ h = bno / 8 then st.bitmap cgi (bno / 8) ||| (1 <<< (bno % 8))
      else st.bitmap cgi h) < 256
  by_cases hh : h = bno / 8
  · rw [if_pos ⟨rfl, hh⟩]
    subst hh
    have h1 : st.bitmap cgi (bno / 8) < 2 ^ 8 := hb
    have h2 : 1 <<< (bno % 8) < 2 ^ 8 := by
      rw [Nat.one_shiftLeft]
      exact Nat.pow_lt_pow_right (by omega) (by omega)
    exact Nat.or_lt_two_pow h1 h2
  · rw [if_neg (by exact fun hc => hh hc.2)]
    exact hb

theorem testBit_mask15 (d : Nat) : (15 : Nat).testBit d = decide (d < 4) := by
  by_cases h : d < 4
  · interval_cases d <;> decide
  · have h1 : (15 : Nat) < 2 ^ d := by
      calc (15 : Nat) < 2 ^ 4 := by norm_num
        _ ≤ 2 ^ d := Nat.pow_le_pow_right (by omega) (by omega)
    rw [Nat.testBit_lt_two_pow h1]
    simp [h]

theorem testBit_mask3 (d : Nat) : (3 : Nat).testBit d = decide (d < 2) := by
  by_cases h : d < 2
  · interval_cases d <;> decide
  · have h1 : (3 : Nat) < 2 ^ d := by
      calc (3 : Nat) < 2 ^ 2 := by norm_num
        _ ≤ 2 ^ d := Nat.pow_le_pow_right (by omega) (by omega)
    rw [Nat.testBit_lt_two_pow h1]
    simp [h]

theorem testBit_mask255 (d : Nat) : (255 : Nat).testBit d = decide (d < 8) := by
  by_cases h : d < 8
  · interval_cases d <;> decide
  · have h1 : (255 : Nat) < 2 ^ d := by
      calc (255 : Nat) < 2 ^ 8 := by norm_num
        _ ≤ 2 ^ d := Nat.pow_le_pow_right (by omega) (by omega)
    rw [Nat.testBit_lt_two_pow h1]
    simp [h]

theorem testBit_mask1 (d : Nat) : (1 : Nat).testBit d = decide (d < 1) := by
  by_cases h : d < 1
  · interval_cases d
    decide
  · have h1 : (1 : Nat) < 2 ^ d := by
      calc (1 : Nat) < 2 ^ 1 := by norm_num
        _ ≤ 2 ^ d := Nat.pow_le_pow_right (by omega) (by omega)
    rw [Nat.testBit_lt_two_pow h1]
    simp [h]

end Rufs.Balloc

namespace Rufs.Balloc

theorem and_shift_mask_iff (x m s w : Nat) (hm : ∀ d, m.testBit d = decide (d < w)) :
    x &&& (m <<< s) = m <<< s ↔ ∀ j, j < w → x.testBit (s + j) = true := by
  rw [and_eq_self_iff]
  constructor
  · intro h j hj
    have h1 : (m <<< s).testBit (s + j) = true := by
      rw [Nat.testBit_shiftLeft, hm]
      have h2 : s + j - s = j := by omega
      rw [h2]
      simp [hj]
    exact h (s + j) h1
  · intro h i hi
    rw [Nat.testBit_shiftLeft, hm] at hi
    have h1 : s ≤ i ∧ i - s < w := by simpa using hi
    have h2 := h (i - s) h1.2
    rw [show s + (i - s) = i by omega] at h2
    exact h2

/-- Correctness of the `for i in 0..nfrag` loop of `blk_free`: when none of
the fragments is already free, it succeeds, touches only CG `cgi`'s bitmap,
and sets exactly the bits of fragments `bno`, …, `bno + n - 1`. -/
theorem free_frags_go_spec (cgi : Nat) : ∀ n bno st,
    (∀ i, i < n → cg_isfreefrag st cgi (bno + i) = false) →
    ∃ st', free_frags_go cgi bno n st = .ok st' ∧
      st'.rw = st.rw ∧ st'.cg = st.cg ∧ st'.sb = st.sb ∧
      (∀ ci h, ci ≠ cgi → st'.bitmap ci h = st.bitmap ci h) ∧
      (∀ h j, j < 8 → (st'.bitmap cgi h).testBit j =
        ((st.bitmap cgi h).testBit j || decide (bno ≤ 8 * h + j ∧ 8 * h + j < bno + n))) ∧
      (∀ h, st.bitmap cgi h < 256 → st'.bitmap cgi h < 256) := by
  intro n
  induction n with
  | zero =>
    intro bno st _
    refine ⟨st, rfl, rfl, rfl, rfl, fun _ _ _ => rfl, ?_, fun _ hb => hb⟩
    intro h j _
    have hd : ¬ (bno ≤ 8 * h + j ∧ 8 * h + j < bno + 0) := by omega
    simp [hd]
  | succ n ih =>
    intro bno st hfree
    have h0 : cg_isfreefrag st cgi bno = false := by
      have := hfree 0 (by omega)
      simpa using this
    have hrec : ∀ i, i < n → cg_isfreefrag (cg_setfrag st cgi bno true) cgi (bno + 1 + i) = false := by
      intro i hi
      rw [isfreefrag_eq]
      rw [setfrag_testBit st cgi bno ((bno + 1 + i) / 8) ((bno + 1 + i) % 8) (by omega)]
      have hne : 8 * ((bno + 1 + i) / 8) + (bno + 1 + i) % 8 ≠ bno := by omega
      have h1 := hfree (i + 1) (by omega)
      rw [isfreefrag_eq] at h1
      rw [show bno + (i + 1) = bno + 1 + i by omega] at h1
      simp [hne, h1]
    obtain ⟨st', hrun, hrw, hcg, hsb, hoth, hbits, hlt⟩ :=
      ih (bno + 1) (cg_setfrag st cgi bno true) hrec
    have hstep : free_frags_go cgi bno (n + 1) st =
        free_frags_go cgi (bno + 1) n (cg_setfrag st cgi bno true) := by
      rw [free_frags_go]
      rw [if_neg (by rw [h0]; exact fun hc => Bool.noConfusion hc)]
    refine ⟨st', by rw [hstep, hrun], by rw [hrw, setfrag_rw], by rw [hcg, setfrag_cg],
      by rw [hsb, setfrag_sb], ?_, ?_, ?_⟩
    · intro ci h hne
      rw [hoth ci h hne, setfrag_bitmap_other st cgi bno ci h true hne]
    · intro h j hj
      rw [hbits h j hj, setfrag_testBit st cgi bno h j hj]
      rw [Bool.or_assoc]
      have hcomb : (decide (8 * h + j = bno) ||
          decide (bno + 1 ≤ 8 * h + j ∧ 8 * h + j < bno + 1 + n)) =
          decide (bno ≤ 8 * h + j ∧ 8 * h + j < bno + (n + 1)) := by
        by_cases h1 : 8 * h + j = bno
        · simp [h1] <;> omega
        · by_cases h2 : bno + 1 ≤ 8 * h + j ∧ 8 * h + j < bno + 1 + n
          · simp [h1, h2] <;> omega
          · simp [h1, h2] <;> omega
      rw [hcomb]
    · intro h hb
      exact hlt h (setfrag_lt_256 st cgi bno h hb)

end Rufs.Balloc

namespace Rufs.Balloc

theorem eq_255_iff_bits (b : Nat) (hb : b < 256) :
    b = 255 ↔ ∀ j, j < 8 → b.testBit j = true := by
  constructor
  · intro h j hj
    subst h
    rw [testBit_mask255]
    simp [hj]
  · intro h
    apply Nat.eq_of_testBit_eq
    intro i
    by_cases hi : i < 8
    · rw [h i hi, testBit_mask255]
      simp [hi]
    · have hpow : (256 : Nat) ≤ 2 ^ i := by
        calc (256 : Nat) = 2 ^ 8 := by norm_num
          _ ≤ 2 ^ i := Nat.pow_le_pow_right (by omega) (by omega)
      rw [Nat.testBit_lt_two_pow (by omega : b < 2 ^ i)]
      rw [Nat.testBit_lt_two_pow (by omega : (255 : Nat) < 2 ^ i)]

/-- The code's block-freeness test `cg_isfreeblock` agrees with "all `frag`
fragment bits of the containing block are free", for each legal `frag`. -/
theorem isfreeblock_bridge (g : SbGeo) (st : BState) (cgi bno : Nat)
    (hfragv : g.frag = 1 ∨ g.frag = 2 ∨ g.frag = 4 ∨ g.frag = 8)
    (hbytes : ∀ h, st.bitmap cgi h < 256) :
    ∃ fb, cg_isfreeblock g st cgi bno = .ok fb ∧
      (fb = true ↔ ∀ j, j < g.frag →
        cg_isfreefrag st cgi (bno / g.frag * g.frag + j) = true) := by
  rcases hfragv with hf | hf | hf | hf
  · -- frag = 1
    have hres : cg_isfreeblock g st cgi bno =
        .ok (st.bitmap cgi ((bno / 1) >>> 3) &&& (1 <<< (((bno / 1) &&& 7) <<< 0)) ==
          1 <<< (((bno / 1) &&& 7) <<< 0)) := by
      unfold cg_isfreeblock
      rw [hf]
      norm_num
    refine ⟨_, hres, ?_⟩
    rw [hf]
    rw [Nat.div_one]
    have hs : (bno &&& 7) <<< 0 = 1 * (bno % 8) := by
      have h4 := Nat.and_pow_two_sub_one_eq_mod bno 3
      norm_num at h4
      rw [Nat.shiftLeft_zero, h4]
      omega
    have hq : bno >>> 3 = bno / 8 := by
      rw [Nat.shiftRight_eq_div_pow]
    rw [hs, hq]
    rw [beq_iff_eq, and_shift_mask_iff _ 1 _ 1 testBit_mask1]
    constructor
    · intro h j hj
      rw [isfreefrag_iff]
      have hq1 : (bno * 1 + j) / 8 = bno / 8 := by omega
      have hq2 : (bno * 1 + j) % 8 = 1 * (bno % 8) + j := by omega
      rw [hq1, hq2]
      exact h j hj
    · intro h j hj
      have h5 := h j hj
      rw [isfreefrag_iff] at h5
      have hq1 : (bno * 1 + j) / 8 = bno / 8 := by omega
      have hq2 : (bno * 1 + j) % 8 = 1 * (bno % 8) + j := by omega
      rw [hq1, hq2] at h5
      exact h5
  · -- frag = 2
    have hres : cg_isfreeblock g st cgi bno =
        .ok (st.bitmap cgi ((bno / 2) >>> 2) &&& (3 <<< (((bno / 2) &&& 3) <<< 1)) ==
          3 <<< (((bno / 2) &&& 3) <<< 1)) := by
      unfold cg_isfreeblock
      rw [hf]
      norm_num
    refine ⟨_, hres, ?_⟩
    rw [hf]
    have hs : ((bno / 2) &&& 3) <<< 1 = 2 * (bno / 2 % 4) := by
      have h4 := Nat.and_pow_two_sub_one_eq_mod (bno / 2) 2
      norm_num at h4
      rw [Nat.shiftLeft_eq, h4]
      have h5 : (2 : Nat) ^ 1 = 2 := by norm_num
      rw [h5]
      omega
    have hq : (bno / 2) >>> 2 = bno / 2 / 4 := by
      rw [Nat.shiftRight_eq_div_pow]
    rw [hs, hq]
    rw [beq_iff_eq, and_shift_mask_iff _ 3 _ 2 testBit_mask3]
    constructor
    · intro h j hj
      rw [isfreefrag_iff]
      have hq1 : (bno / 2 * 2 + j) / 8 = bno / 2 / 4 := by omega
      have hq2 : (bno / 2 * 2 + j) % 8 = 2 * (bno / 2 % 4) + j := by omega
      rw [hq1, hq2]
      exact h j hj
    · intro h j hj
      have h5 := h j hj
      rw [isfreefrag_iff] at h5
      have hq1 : (bno / 2 * 2 + j) / 8 = bno / 2 / 4 := by omega
      have hq2 : (bno / 2 * 2 + j) % 8 = 2 * (bno / 2 % 4) + j := by omega
      rw [hq1, hq2] at h5
      exact h5
  · -- frag = 4
    have hres : cg_isfreeblock g st cgi bno =
        .ok (st.bitmap cgi ((bno / 4) >>> 1) &&& (15 <<< (((bno / 4) &&& 1) <<< 2)) ==
          15 <<< (((bno / 4) &&& 1) <<< 2)) := by
      unfold cg_isfreeblock
      rw [hf]
      norm_num
    refine ⟨_, hres, ?_⟩
    rw [hf]
    have hs : ((bno / 4) &&& 1) <<< 2 = 4 * (bno / 4 % 2) := by
      rw [Nat.and_one_is_mod, Nat.shiftLeft_eq]
      have h5 : (2 : Nat) ^ 2 = 4 := by norm_num
      rw [h5]
      omega
    have hq : (bno / 4) >>> 1 = bno / 4 / 2 := by
      rw [Nat.shiftRight_eq_div_pow]
    rw [hs, hq]
    rw [beq_iff_eq, and_shift_mask_iff _ 15 _ 4 testBit_mask15]
    constructor
    · intro h j hj
      rw [isfreefrag_iff]
      have hq1 : (bno / 4 * 4 + j) / 8 = bno / 4 / 2 := by omega
      have hq2 : (bno / 4 * 4 + j) % 8 = 4 * (bno / 4 % 2) + j := by omega
      rw [hq1, hq2]
      exact h j hj
    · intro h j hj
      have h5 := h j hj
      rw [isfreefrag_iff] at h5
      have hq1 : (bno / 4 * 4 + j) / 8 = bno / 4 / 2 := by omega
      have hq2 : (bno / 4 * 4 + j) % 8 = 4 * (bno / 4 % 2) + j := by omega
      rw [hq1, hq2] at h5
      exact h5
  · -- frag = 8
    have hres : cg_isfreeblock g st cgi bno =
        .ok (st.bitmap cgi (bno / 8) == 255) := by
      unfold cg_isfreeblock
      rw [hf]
      norm_num
    refine ⟨_, hres, ?_⟩
    rw [hf]
    rw [beq_iff_eq, eq_255_iff_bits _ (hbytes (bno / 8))]
    constructor
    · intro h j hj
      rw [isfreefrag_iff]
      have hq1 : (bno / 8 * 8 + j) / 8 = bno / 8 := by omega
      have hq2 : (bno / 8 * 8 + j) % 8 = j := by omega
      rw [hq1, hq2]
      exact h j hj
    · intro h j hj
      have h5 := h j hj
      rw [isfreefrag_iff] at h5
      have hq1 : (bno / 8 * 8 + j) / 8 = bno / 8 := by omega
      have hq2 : (bno / 8 * 8 + j) % 8 = j := by omega
      rw [hq1, hq2] at h5
      exact h5

end Rufs.Balloc

namespace Rufs.Balloc

/-- Sum of the per-CG `nffree` counters over groups `0..ncg-1`. -/
def sumNffree (st : BState) (ncg : Nat) : Int :=
  ∑ i in Finset.range ncg, (st.cg i).nffree

/-- Sum of the per-CG `nbfree` counters over groups `0..ncg-1`. -/
def sumNbfree (st : BState) (ncg : Nat) : Int :=
  ∑ i in Finset.range ncg, (st.cg i).nbfree

theorem sum_update (f f2 : Nat → Int) (cgi ncg : Nat) (hmem : cgi < ncg)
    (hoth : ∀ i, i ≠ cgi → f2 i = f i) :
    ∑ i in Finset.range ncg, f2 i =
      (∑ i in Finset.range ncg, f i) + (f2 cgi - f cgi) := by
  have h1 : ∀ i ∈ Finset.range ncg, f2 i = f i + (if i = cgi then f2 cgi - f cgi else 0) := by
    intro i _
    by_cases h : i = cgi
    · subst h
      simp
    · simp [h, hoth i h]
  rw [Finset.sum_congr rfl h1, Finset.sum_add_distrib]
  rw [Finset.sum_ite_eq' (Finset.range ncg) cgi (fun _ => f2 cgi - f cgi)]
  simp [Finset.mem_range.mpr hmem]

end Rufs.Balloc

namespace Rufs.Balloc

theorem bump_nffree_cg_other (cgi nfrag i : Nat) (st1 : BState) (h : i ≠ cgi) :
    (bump_nffree cgi nfrag st1).cg i = st1.cg i := by
  simp [bump_nffree, h]

theorem bump_nffree_nffree (cgi nfrag : Nat) (st1 : BState) :
    ((bump_nffree cgi nfrag st1).cg cgi).nffree =
      wrap32 ((st1.cg cgi).nffree + (nfrag : Int)) := by
  simp [bump_nffree]

theorem bump_nffree_nbfree (cgi nfrag : Nat) (st1 : BState) :
    ((bump_nffree cgi nfrag st1).cg cgi).nbfree = (st1.cg cgi).nbfree := by
  simp [bump_nffree]

theorem bump_nffree_sb_nffree (cgi nfrag : Nat) (st1 : BState) :
    (bump_nffree cgi nfrag st1).sb.nffree = wrap64 (st1.sb.nffree + (nfrag : Int)) := rfl

theorem bump_nffree_sb_nbfree (cgi nfrag : Nat) (st1 : BState) :
    (bump_nffree cgi nfrag st1).sb.nbfree = st1.sb.nbfree := rfl

theorem bump_nffree_bitmap (cgi nfrag : Nat) (st1 : BState) :
    (bump_nffree cgi nfrag st1).bitmap = st1.bitmap := rfl

theorem reassemble_cg_other (g : SbGeo) (cgi i : Nat) (st2 : BState) (h : i ≠ cgi) :
    (reassemble g cgi st2).cg i = st2.cg i := by
  simp [reassemble, h]

theorem reassemble_nffree (g : SbGeo) (cgi : Nat) (st2 : BState) :
    ((reassemble g cgi st2).cg cgi).nffree =
      wrap32 ((st2.cg cgi).nffree - (g.frag : Int)) := by
  simp [reassemble]

theorem reassemble_nbfree (g : SbGeo) (cgi : Nat) (st2 : BState) :
    ((reassemble g cgi st2).cg cgi).nbfree = wrap32 ((st2.cg cgi).nbfree + 1) := by
  simp [reassemble]

theorem reassemble_sb_nffree (g : SbGeo) (cgi : Nat) (st2 : BState) :
    (reassemble g cgi st2).sb.nffree = wrap64 (st2.sb.nffree - (g.frag : Int)) := rfl

theorem reassemble_sb_nbfree (g : SbGeo) (cgi : Nat) (st2 : BState) :
    (reassemble g cgi st2).sb.nbfree = wrap64 (st2.sb.nbfree + 1) := rfl

theorem reassemble_bitmap (g : SbGeo) (cgi : Nat) (st2 : BState) :
    (reassemble g cgi st2).bitmap = st2.bitmap := rfl

end Rufs.Balloc


namespace Rufs.Balloc

/-- C4: for every `blk_free(bno, size)` call with `0 < size < bs` and `bno`
nonzero, each of the `size / fs` fragment bits is set free and `nffree`
increases by `size / fs` in both the cylinder group and the superblock
totals; and if the frag bits at the containing block boundary then form a
complete free block, additionally `nbfree` increases by 1 and `nffree`
decreases by `frag` in both — so the invariant "sum over CGs = superblock
counters" is preserved. -/
theorem c4_blk_free_frag_counters (g : SbGeo) (st : BState) (bno size : Nat)
    (hrw : st.rw = true) (hbno : bno ≠ 0)
    (hfs : 0 < g.fsize) (hsz0 : 0 < size) (hszlt : size < g.bsize)
    (hdvd : g.fsize ∣ size)
    (hassert : bno % g.bsize / g.fsize + size / g.fsize ≤ g.frag)
    (hfragv : g.frag = 1 ∨ g.frag = 2 ∨ g.frag = 4 ∨ g.frag = 8)
    (hfree : ∀ i, i < size / g.fsize →
      cg_isfreefrag st (bno / g.fpg) (bno % g.fpg + i) = false)
    (hbytes : ∀ h, st.bitmap (bno / g.fpg) h < 256)
    (hcga : 0 ≤ (st.cg (bno / g.fpg)).nffree)
    (hcgb : (st.cg (bno / g.fpg)).nffree + 8 < 2 ^ 31)
    (hcgc : 0 ≤ (st.cg (bno / g.fpg)).nbfree)
    (hcgd : (st.cg (bno / g.fpg)).nbfree + 1 < 2 ^ 31)
    (hsba : 0 ≤ st.sb.nffree) (hsbb : st.sb.nffree + 8 < 2 ^ 63)
    (hsbc : 0 ≤ st.sb.nbfree) (hsbd : st.sb.nbfree + 1 < 2 ^ 63) :
    ∃ st' fb,
      blk_free g st bno size = .ok st' ∧
      cg_isfreeblock g st' (bno / g.fpg) (bno % g.fpg) = .ok fb ∧
      (∀ i, i < size / g.fsize →
        cg_isfreefrag st' (bno / g.fpg) (bno % g.fpg + i) = true) ∧
      (fb = true ↔ ∀ j, j < g.frag →
        cg_isfreefrag st' (bno / g.fpg) (bno % g.fpg / g.frag * g.frag + j) = true) ∧
      (st'.cg (bno / g.fpg)).nffree = (st.cg (bno / g.fpg)).nffree + (size / g.fsize : Nat)
        - (if fb then (g.frag : Int) else 0) ∧
      (st'.cg (bno / g.fpg)).nbfree = (st.cg (bno / g.fpg)).nbfree
        + (if fb then 1 else 0) ∧
      st'.sb.nffree = st.sb.nffree + (size / g.fsize : Nat)
        - (if fb then (g.frag : Int) else 0) ∧
      st'.sb.nbfree = st.sb.nbfree + (if fb then 1 else 0) ∧
      (∀ i, i ≠ bno / g.fpg → st'.cg i = st.cg i) ∧
      (∀ ncg, bno / g.fpg < ncg →
        (sumNffree st ncg = st.sb.nffree → sumNffree st' ncg = st'.sb.nffree) ∧
        (sumNbfree st ncg = st.sb.nbfree → sumNbfree st' ncg = st'.sb.nbfree)) := by
  have hmod : size % g.fsize = 0 := by
    obtain ⟨k, hk⟩ := hdvd
    subst hk
    exact Nat.mul_mod_right _ _
  have hfrag8 : g.frag ≤ 8 := by rcases hfragv with h | h | h | h <;> omega
  have hnf8 : size / g.fsize ≤ 8 :=
    le_trans (le_trans (Nat.le_add_left _ _) hassert) hfrag8
  obtain ⟨st1, hrun, hrw1, hcgE, hsbE, hoth1, hbits1, hlt1⟩ :=
    free_frags_go_spec (bno / g.fpg) (size / g.fsize) (bno % g.fpg) st hfree
  have hbytes2 : ∀ h,
      (bump_nffree (bno / g.fpg) (size / g.fsize) st1).bitmap (bno / g.fpg) h < 256 := by
    intro h
    rw [bump_nffree_bitmap]
    exact hlt1 h (hbytes h)
  obtain ⟨fb, hfb, hiff⟩ :=
    isfreeblock_bridge g (bump_nffree (bno / g.fpg) (size / g.fsize) st1)
      (bno / g.fpg) (bno % g.fpg) hfragv hbytes2
  have hblk : blk_free g st bno size =
      (if fb = true
        then .ok (reassemble g (bno / g.fpg)
          (bump_nffree (bno / g.fpg) (size / g.fsize) st1))
        else .ok (bump_nffree (bno / g.fpg) (size / g.fsize) st1)) := by
    unfold blk_free assert_rw
    rw [hrw]
    simp only [if_true]
    rw [if_neg hbno, if_neg (by omega : ¬ size = 0),
      if_neg (not_not_intro (Nat.le_of_lt hszlt)), if_neg (not_not_intro hmod),
      if_neg (not_not_intro hassert), if_neg (by omega : ¬ size = g.bsize)]
    rw [hrun]
    show (match cg_isfreeblock g (bump_nffree (bno / g.fpg) (size / g.fsize) st1)
        (bno / g.fpg) (bno % g.fpg) with
      | .panic => (Outcome.panic : Outcome BState)
      | .err e => Outcome.err e
      | .ok full =>
        if full then .ok (reassemble g (bno / g.fpg)
          (bump_nffree (bno / g.fpg) (size / g.fsize) st1))
        else .ok (bump_nffree (bno / g.fpg) (size / g.fsize) st1)) = _
    rw [hfb]
  have hbits : ∀ i, i < size / g.fsize →
      cg_isfreefrag st1 (bno / g.fpg) (bno % g.fpg + i) = true := by
    intro i hi
    rw [isfreefrag_eq]
    rw [hbits1 ((bno % g.fpg + i) / 8) ((bno % g.fpg + i) % 8) (by omega)]
    have hd : bno % g.fpg ≤ 8 * ((bno % g.fpg + i) / 8) + (bno % g.fpg + i) % 8 ∧
        8 * ((bno % g.fpg + i) / 8) + (bno % g.fpg + i) % 8 <
          bno % g.fpg + size / g.fsize := by
      omega
    simp [hd]
  have hnf0 : (0 : Int) ≤ ((size / g.fsize : Nat) : Int) := Int.natCast_nonneg _
  have hnfle : ((size / g.fsize : Nat) : Int) ≤ 8 := by exact_mod_cast hnf8
  have hfrag0 : (0 : Int) ≤ ((g.frag : Nat) : Int) := Int.natCast_nonneg _
  have hfragle : ((g.frag : Nat) : Int) ≤ 8 := by exact_mod_cast hfrag8
  have hw1 : wrap32 ((st1.cg (bno / g.fpg)).nffree + ((size / g.fsize : Nat) : Int)) =
      (st.cg (bno / g.fpg)).nffree + ((size / g.fsize : Nat) : Int) := by
    rw [hcgE]
    apply wrap32_eq_self <;> omega
  have hw2 : wrap64 (st1.sb.nffree + ((size / g.fsize : Nat) : Int)) =
      st.sb.nffree + ((size / g.fsize : Nat) : Int) := by
    rw [hsbE]
    apply wrap64_eq_self <;> omega
  cases fb with
  | false =>
    refine ⟨bump_nffree (bno / g.fpg) (size / g.fsize) st1, false, ?_, hfb, ?_, hiff,
      ?_, ?_, ?_, ?_, ?_, ?_⟩
    · rw [hblk]
      simp
    · intro i hi
      rw [isfreefrag_congr (bump_nffree_bitmap (bno / g.fpg) (size / g.fsize) st1)]
      exact hbits i hi
    · rw [bump_nffree_nffree, hw1]
      simp
    · rw [bump_nffree_nbfree, hcgE]
      simp
    · rw [bump_nffree_sb_nffree, hw2]
      simp
    · rw [bump_nffree_sb_nbfree, hsbE]
      simp
    · intro i hi
      rw [bump_nffree_cg_other _ _ _ _ hi, hcgE]
    · intro ncg hncg
      have hothF : ∀ i, i ≠ bno / g.fpg →
          ((bump_nffree (bno / g.fpg) (size / g.fsize) st1).cg i).nffree =
            (st.cg i).nffree :=
        fun i hi => by rw [bump_nffree_cg_other _ _ _ _ hi, hcgE]
      have hothF2 : ∀ i, i ≠ bno / g.fpg →
          ((bump_nffree (bno / g.fpg) (size / g.fsize) st1).cg i).nbfree =
            (st.cg i).nbfree :=
        fun i hi => by rw [bump_nffree_cg_other _ _ _ _ hi, hcgE]
      have hsum1 := sum_update (fun i => (st.cg i).nffree)
        (fun i => ((bump_nffree (bno / g.fpg) (size / g.fsize) st1).cg i).nffree)
        (bno / g.fpg) ncg hncg hothF
      have hsum2 := sum_update (fun i => (st.cg i).nbfree)
        (fun i => ((bump_nffree (bno / g.fpg) (size / g.fsize) st1).cg i).nbfree)
        (bno / g.fpg) ncg hncg hothF2
      simp only [] at hsum1 hsum2
      constructor
      · intro hinv
        unfold sumNffree at *
        rw [hsum1, hinv, bump_nffree_nffree, hw1, bump_nffree_sb_nffree, hw2]
        ring
      · intro hinv
        unfold sumNbfree at *
        rw [hsum2, hinv, bump_nffree_nbfree, hcgE, bump_nffree_sb_nbfree, hsbE]
        ring
  | true =>
    have hw3 : wrap32 ((st.cg (bno / g.fpg)).nffree + ((size / g.fsize : Nat) : Int) -
        ((g.frag : Nat) : Int)) =
        (st.cg (bno / g.fpg)).nffree + ((size / g.fsize : Nat) : Int) -
        ((g.frag : Nat) : Int) := by
      apply wrap32_eq_self <;> omega
    have hw4 : wrap32 ((st.cg (bno / g.fpg)).nbfree + 1) =
        (st.cg (bno / g.fpg)).nbfree + 1 := by
      apply wrap32_eq_self <;> omega
    have hw5 : wrap64 (st.sb.nffree + ((size / g.fsize : Nat) : Int) -
        ((g.frag : Nat) : Int)) =
        st.sb.nffree + ((size / g.fsize : Nat) : Int) - ((g.frag : Nat) : Int) := by
      apply wrap64_eq_self <;> omega
    have hw6 : wrap64 (st.sb.nbfree + 1) = st.sb.nbfree + 1 := by
      apply wrap64_eq_self <;> omega
    have hfr : ∀ b, cg_isfreefrag (reassemble g (bno / g.fpg)
        (bump_nffree (bno / g.fpg) (size / g.fsize) st1)) (bno / g.fpg) b =
        cg_isfreefrag (bump_nffree (bno / g.fpg) (size / g.fsize) st1) (bno / g.fpg) b :=
      fun b => isfreefrag_congr (reassemble_bitmap _ _ _) (bno / g.fpg) b
    refine ⟨reassemble g (bno / g.fpg) (bump_nffree (bno / g.fpg) (size / g.fsize) st1),
      true, ?_, ?_, ?_, ?_, ?_, ?_, ?_, ?_, ?_, ?_⟩
    · rw [hblk]
      simp
    · rw [isfreeblock_congr g (reassemble_bitmap g (bno / g.fpg) _) (bno / g.fpg) (bno % g.fpg)]
      exact hfb
    · intro i hi
      rw [hfr, isfreefrag_congr (bump_nffree_bitmap (bno / g.fpg) (size / g.fsize) st1)]
      exact hbits i hi
    · simp only [hfr]
      simpa using hiff
    · rw [reassemble_nffree, bump_nffree_nffree, hw1, hw3]
      simp
    · rw [reassemble_nbfree, bump_nffree_nbfree, hcgE, hw4]
      simp
    · rw [reassemble_sb_nffree, bump_nffree_sb_nffree, hw2, hw5]
      simp
    · rw [reassemble_sb_nbfree, bump_nffree_sb_nbfree, hsbE, hw6]
      simp
    · intro i hi
      rw [reassemble_cg_other _ _ _ _ hi, bump_nffree_cg_other _ _ _ _ hi, hcgE]
    · intro ncg hncg
      have hothT : ∀ i, i ≠ bno / g.fpg →
          ((reassemble g (bno / g.fpg)
            (bump_nffree (bno / g.fpg) (size / g.fsize) st1)).cg i).nffree =
            (st.cg i).nffree :=
        fun i hi => by
          rw [reassemble_cg_other _ _ _ _ hi, bump_nffree_cg_other _ _ _ _ hi, hcgE]
      have hothT2 : ∀ i, i ≠ bno / g.fpg →
          ((reassemble g (bno / g.fpg)
            (bump_nffree (bno / g.fpg) (size / g.fsize) st1)).cg i).nbfree =
            (st.cg i).nbfree :=
        fun i hi => by
          rw [reassemble_cg_other _ _ _ _ hi, bump_nffree_cg_other _ _ _ _ hi, hcgE]
      have hsum1 := sum_update (fun i => (st.cg i).nffree)
        (fun i => ((reassemble g (bno / g.fpg)
          (bump_nffree (bno / g.fpg) (size / g.fsize) st1)).cg i).nffree)
        (bno / g.fpg) ncg hncg hothT
      have hsum2 := sum_update (fun i => (st.cg i).nbfree)
        (fun i => ((reassemble g (bno / g.fpg)
          (bump_nffree (bno / g.fpg) (size / g.fsize) st1)).cg i).nbfree)
        (bno / g.fpg) ncg hncg hothT2
      simp only [] at hsum1 hsum2
      constructor
      · intro hinv
        unfold sumNffree at *
        rw [hsum1, hinv, reassemble_nffree, bump_nffree_nffree, hw1, hw3,
          reassemble_sb_nffree, bump_nffree_sb_nffree, hw2, hw5]
        ring
      · intro hinv
        unfold sumNbfree at *
        rw [hsum2, hinv, reassemble_nbfree, bump_nffree_nbfree, hcgE, hw4,
          reassemble_sb_nbfree, bump_nffree_sb_nbfree, hsbE, hw6]
        ring

end Rufs.Balloc

namespace Rufs.Balloc

/-- Concrete writable allocator state with every fragment allocated
(bitmap all zeros) and small nonzero counters. -/
def exAllUsed : BState :=
  { rw := true
    bitmap := fun _ _ => 0
    cg := fun _ => ⟨5, 5, 0, 0⟩
    sb := ⟨5, 5, 0, 0⟩ }

/-- C4 witness: freeing one 8-byte fragment (`blk_free(2, 8)`) on a
concrete fully-allocated state discharges every hypothesis of the
counter/bitmap theorem. -/
theorem c4_blk_free_frag_counters_witness :
    exAllUsed.rw = true ∧ (2 : Nat) ≠ 0 ∧ 0 < exGeo.fsize ∧ 0 < (8 : Nat) ∧
    (8 : Nat) < exGeo.bsize ∧ exGeo.fsize ∣ 8 ∧
    2 % exGeo.bsize / exGeo.fsize + 8 / exGeo.fsize ≤ exGeo.frag ∧
    (exGeo.frag = 1 ∨ exGeo.frag = 2 ∨ exGeo.frag = 4 ∨ exGeo.frag = 8) ∧
    (∀ i, i < 8 / exGeo.fsize →
      cg_isfreefrag exAllUsed (2 / exGeo.fpg) (2 % exGeo.fpg + i) = false) ∧
    (∃ st' fb,
      blk_free exGeo exAllUsed 2 8 = .ok st' ∧
      cg_isfreeblock exGeo st' (2 / exGeo.fpg) (2 % exGeo.fpg) = .ok fb ∧
      (∀ i, i < 8 / exGeo.fsize →
        cg_isfreefrag st' (2 / exGeo.fpg) (2 % exGeo.fpg + i) = true) ∧
      (fb = true ↔ ∀ j, j < exGeo.frag →
        cg_isfreefrag st' (2 / exGeo.fpg)
          (2 % exGeo.fpg / exGeo.frag * exGeo.frag + j) = true) ∧
      (st'.cg (2 / exGeo.fpg)).nffree = (exAllUsed.cg (2 / exGeo.fpg)).nffree +
        (8 / exGeo.fsize : Nat) - (if fb then (exGeo.frag : Int) else 0) ∧
      (st'.cg (2 / exGeo.fpg)).nbfree = (exAllUsed.cg (2 / exGeo.fpg)).nbfree +
        (if fb then 1 else 0) ∧
      st'.sb.nffree = exAllUsed.sb.nffree + (8 / exGeo.fsize : Nat) -
        (if fb then (exGeo.frag : Int) else 0) ∧
      st'.sb.nbfree = exAllUsed.sb.nbfree + (if fb then 1 else 0) ∧
      (∀ i, i ≠ 2 / exGeo.fpg → st'.cg i = exAllUsed.cg i) ∧
      (∀ ncg, 2 / exGeo.fpg < ncg →
        (sumNffree exAllUsed ncg = exAllUsed.sb.nffree →
          sumNffree st' ncg = st'.sb.nffree) ∧
        (sumNbfree exAllUsed ncg = exAllUsed.sb.nbfree →
          sumNbfree st' ncg = st'.sb.nbfree))) :=
  ⟨rfl, by decide, by decide, by decide, by decide, by decide, by decide, by decide,
    by decide,
    c4_blk_free_frag_counters exGeo exAllUsed 2 8 rfl (by decide) (by decide) (by decide)
      (by decide) (by decide) (by decide) (by decide) (by decide)
      (by intro h; show (0:Nat) < 256; decide) (by decide) (by decide) (by decide) (by decide)
      (by decide) (by decide) (by decide) (by decide)⟩

end Rufs.Balloc

namespace Rufs.Shrink

/-- Geometry of the filesystem as used by ialloc.rs: block size and fragment
size in bytes. Pointer blocks hold `bs / 8` 64-bit block numbers. -/
structure SGeo where
  bs : Nat
  fs : Nat
deriving DecidableEq

/-- Function pbp: pointers per pointer block, `bs / size_of::<u64>()`. -/
def pbp (g : SGeo) : Nat := g.bs / 8

/-- Shrink-side view of an inode: `size` and `blocks` fields plus the block
table (`direct[12]`, `indirect[3]`) of `InodeData::Blocks`. -/
structure SInode where
  size : Nat
  blocks : Nat
  direct : List Nat
  indirect : List Nat
deriving DecidableEq

/-- State touched by `inode_shrink`: the store of pointer blocks (a pointer
block number maps to its table of 64-bit entries, as read/written by
`read_pblock`/`write_pblock`), and the log of `blk_free(bno, size)` calls.
`blk_free` itself is embedded in namespace `Rufs.Balloc`; here only its
observable effect on the traversal (which block numbers are released, with
which size) is recorded. -/
structure SState where
  pstore : Nat → List Nat
  freed : List (Nat × Nat)

/-- Function read_pblock (ialloc.rs lines 84-98): read the pointer table at
block `bno`. -/
def read_pblock (st : SState) (bno : Nat) : List Nat := st.pstore bno

/-- Function write_pblock (ialloc.rs lines 100-114): write the pointer table
at block `bno`. -/
def write_pblock (st : SState) (bno : Nat) (tbl : List Nat) : SState :=
  { st with pstore := fun b => if b = bno then tbl else st.pstore b }

/-- Function blk_free as observed by the shrink path: `blk_free(0, _)` is a
no-op; otherwise the freed block is appended to the log. -/
def blk_free (st : SState) (bno size : Nat) : SState :=
  if bno = 0 then st else { st with freed := st.freed ++ [(bno, size)] }

/-- Function Inode::size / inode_size: whole blocks and trailing fragments of
a byte size. -/
def inode_size (g : SGeo) (size : Nat) : Nat × Nat :=
  (size / g.bs, (size % g.bs + g.fs - 1) / g.fs)

/-- Function inode_get_block_size (inode.rs lines 379-396): `bs` for a whole
block, `fs * frags` for the trailing fragment block, panic out of bounds. -/
def inode_get_block_size (g : SGeo) (ino : SInode) (blkidx : Nat) : Outcome Nat :=
  let blocks := (inode_size g ino.size).1
  let frags := (inode_size g ino.size).2
  if blkidx < blocks then .ok g.bs
  else if blkidx < blocks + frags then .ok (g.fs * frags)
  else .panic

/-- Function inode_free_block (ialloc.rs lines 501-506): free the block and
subtract `size / 512` from the inode's `blocks` counter (u64 wrap). -/
def inode_free_block (g : SGeo) (ino : SInode) (st : SState) (bno size : Nat) :
    SInode × SState :=
  ((match g with | _ => { ino with blocks := wsub64 ino.blocks (size / 512) }),
    blk_free st bno size)

/-- Loop body of inode_free_l1 (ialloc.rs lines 123-129): free every nonzero
entry of the table, the entry index serving as the blkidx for the size. -/
def free_l1_go (g : SGeo) : List Nat → Nat → SInode → SState → Outcome (SInode × SState)
  | [], _, ino, st => .ok (ino, st)
  | b :: rest, idx, ino, st =>
    if b = 0 then free_l1_go g rest (idx + 1) ino st
    else
      match inode_get_block_size g ino idx with
      | .ok size =>
        let is := inode_free_block g ino st b size
        free_l1_go g rest (idx + 1) is.1 is.2
      | .err e => .err e
      | .panic => .panic

/-- Function inode_free_l1 (ialloc.rs lines 116-134): no-op on bno 0, else
read the table into the scratch buffer, free its entries, free the table
block. Returns the updated inode, the scratch buffer contents, and state. -/
def inode_free_l1 (g : SGeo) (ino : SInode) (bno : Nat) (block : List Nat)
    (st : SState) : Outcome (SInode × List Nat × SState) :=
  if bno = 0 then .ok (ino, block, st)
  else
    let blk := read_pblock st bno
    match free_l1_go g blk 0 ino st with
    | .ok (ino1, st1) => .ok (ino1, blk, blk_free st1 bno g.bs)
    | .err e => .err e
    | .panic => .panic

/-- Loop body of inode_free_l2 (ialloc.rs lines 144-146): free each L1 table
named by the owned copy, threading the shared scratch buffer. -/
def free_l2_go (g : SGeo) : List Nat → SInode → List Nat → SState →
    Outcome (SInode × List Nat × SState)
  | [], ino, block, st => .ok (ino, block, st)
  | b :: rest, ino, block, st =>
    match inode_free_l1 g ino b block st with
    | .ok (ino1, block1, st1) => free_l2_go g rest ino1 block1 st1
    | .err e => .err e
    | .panic => .panic

/-- Function inode_free_l2 (ialloc.rs lines 136-151). -/
def inode_free_l2 (g : SGeo) (ino : SInode) (bno : Nat) (block : List Nat)
    (st : SState) : Outcome (SInode × List Nat × SState) :=
  if bno = 0 then .ok (ino, block, st)
  else
    let blk := read_pblock st bno
    match free_l2_go g blk ino blk st with
    | .ok (ino1, block1, st1) => .ok (ino1, block1, blk_free st1 bno g.bs)
    | .err e => .err e
    | .panic => .panic

/-- Loop body of inode_free_l3 (ialloc.rs lines 161-163). -/
def free_l3_go (g : SGeo) : List Nat → SInode → List Nat → SState →
    Outcome (SInode × List Nat × SState)
  | [], ino, block, st => .ok (ino, block, st)
  | b :: rest, ino, block, st =>
    match inode_free_l2 g ino b block st with
    | .ok (ino1, block1, st1) => free_l3_go g rest ino1 block1 st1
    | .err e => .err e
    | .panic => .panic

/-- Function inode_free_l3 (ialloc.rs lines 153-168). -/
def inode_free_l3 (g : SGeo) (ino : SInode) (bno : Nat) (block : List Nat)
    (st : SState) : Outcome (SInode × List Nat × SState) :=
  if bno = 0 then .ok (ino, block, st)
  else
    let blk := read_pblock st bno
    match free_l3_go g blk ino blk st with
    | .ok (ino1, block1, st1) => .ok (ino1, block1, blk_free st1 bno g.bs)
    | .err e => .err e
    | .panic => .panic

/-- Loops of inode_shrink that partially free one leaf table (ialloc.rs lines
275-283, 314-321, 341-348, 358-365): for `count` slots from index `i`, take
the entry out of the table (writing 0 back), skip zeros, look the size up at
blkidx `bidx i` and free the block. -/
def free_range_go (g : SGeo) (bidx : Nat → Nat) :
    Nat → Nat → List Nat → SInode → SState → Outcome (List Nat × SInode × SState)
  | 0, _, tbl, ino, st => .ok (tbl, ino, st)
  | n + 1, i, tbl, ino, st =>
    let bno := tbl.getD i 0
    let tbl1 := tbl.set i 0
    if bno = 0 then free_range_go g bidx n (i + 1) tbl1 ino st
    else
      match inode_get_block_size g ino (bidx i) with
      | .ok size =>
        let is := inode_free_block g ino st bno size
        free_range_go g bidx n (i + 1) tbl1 is.1 is.2
      | .err e => .err e
      | .panic => .panic

/-- Loops of inode_shrink that free whole L1 tables named by a parent table
(ialloc.rs lines 285-288, 325-328): take each entry out of the parent and
pass it to inode_free_l1 with the shared scratch buffer. -/
def free_l1_range_go (g : SGeo) :
    Nat → Nat → List Nat → List Nat → SInode → SState →
    Outcome (List Nat × List Nat × SInode × SState)
  | 0, _, tbl, block, ino, st => .ok (tbl, block, ino, st)
  | n + 1, i, tbl, block, ino, st =>
    let bno := tbl.getD i 0
    let tbl1 := tbl.set i 0
    match inode_free_l1 g ino bno block st with
    | .ok (ino1, block1, st1) => free_l1_range_go g n (i + 1) tbl1 block1 ino1 st1
    | .err e => .err e
    | .panic => .panic

/-- Loop of inode_shrink that frees whole L2 subtrees named by the L3 table
(ialloc.rs lines 292-295). -/
def free_l2_range_go (g : SGeo) :
    Nat → Nat → List Nat → List Nat → SInode → SState →
    Outcome (List Nat × List Nat × SInode × SState)
  | 0, _, tbl, block, ino, st => .ok (tbl, block, ino, st)
  | n + 1, i, tbl, block, ino, st =>
    let bno := tbl.getD i 0
    let tbl1 := tbl.set i 0
    match inode_free_l2 g ino bno block st with
    | .ok (ino1, block1, st1) => free_l2_range_go g n (i + 1) tbl1 block1 ino1 st1
    | .err e => .err e
    | .panic => .panic

/-- Function inode_shrink (ialloc.rs lines 246-369), embedded over an inode
whose data is the `InodeData::Blocks` form (the EINVAL branch for the
shortlink form is outside this model). The scratch buffer `block` is
threaded exactly as in the source; in particular line 297 writes the scratch
buffer, not the retained copy `fst` of the L3 table. -/
def inode_shrink (g : SGeo) (st : SState) (ino : SInode) (new_size : Nat) :
    Outcome (SInode × SState) :=
  let p := pbp g
  let begin1 := 12
  let begin2 := 12 + p
  let begin3 := 12 + p + p * p
  let bf := inode_size g new_size
  let blocks := bf.1 + (if bf.2 > 0 then 1 else 0)
  let block0 : List Nat := List.replicate p 0
  if begin3 ≤ blocks then
    let used := blocks - begin3
    let l3no := ino.indirect.getD 2 0
    let fst := read_pblock st l3no
    let off1 := used / p / p
    let off2 := used / p % p
    let off3 := used % p
    let snd := read_pblock st (fst.getD off1 0)
    let leaf := read_pblock st (snd.getD off2 0)
    match free_range_go g (fun i => begin3 + off3 * p * p + off2 * p + i)
        (p - off3) off3 leaf ino st with
    | .ok (block1, ino1, st1) =>
      let st2 := write_pblock st1 (snd.getD off2 0) block1
      match free_l1_range_go g (p - (off2 + 1)) (off2 + 1) snd block1 ino1 st2 with
      | .ok (snd1, block2, ino2, st3) =>
        let st4 := write_pblock st3 (fst.getD off1 0) snd1
        match free_l2_range_go g (p - (off1 + 1)) (off1 + 1) fst block2 ino2 st4 with
        | .ok (_, block3, ino3, st5) =>
          .ok (ino3, write_pblock st5 l3no block3)
        | .err e => .err e
        | .panic => .panic
      | .err e => .err e
      | .panic => .panic
    | .err e => .err e
    | .panic => .panic
  else
    let i2 := ino.indirect.getD 2 0
    let ino := { ino with indirect := ino.indirect.set 2 0 }
    match inode_free_l3 g ino i2 block0 st with
    | .ok (ino1, block1, st1) =>
      if begin2 ≤ blocks then
        let used := blocks - begin2
        let l2no := ino1.indirect.getD 1 0
        let fst := read_pblock st1 l2no
        let off1 := used / p
        let off2 := used % p
        let leaf := read_pblock st1 (fst.getD off1 0)
        match free_range_go g (fun i => begin2 + off2 * p + i)
            (p - off2) off2 leaf ino1 st1 with
        | .ok (block2, ino2, st2) =>
          let st3 := write_pblock st2 (fst.getD off1 0) block2
          match free_l1_range_go g (p - (off1 + 1)) (off1 + 1) fst block2 ino2 st3 with
          | .ok (fst1, _, ino3, st4) =>
            .ok (ino3, write_pblock st4 l2no fst1)
          | .err e => .err e
          | .panic => .panic
        | .err e => .err e
        | .panic => .panic
      else
        let i1 := ino1.indirect.getD 1 0
        let ino1 := { ino1 with indirect := ino1.indirect.set 1 0 }
        match inode_free_l2 g ino1 i1 block1 st1 with
        | .ok (ino2, block2, st2) =>
          if begin1 ≤ blocks then
            let used := blocks - begin1
            let l1no := ino2.indirect.getD 0 0
            let leaf := read_pblock st2 l1no
            match free_range_go g (fun i => begin1 + i)
                (p - used) used leaf ino2 st2 with
            | .ok (block3, ino3, st3) =>
              .ok (ino3, write_pblock st3 l1no block3)
            | .err e => .err e
            | .panic => .panic
          else
            let i0 := ino2.indirect.getD 0 0
            let ino2 := { ino2 with indirect := ino2.indirect.set 0 0 }
            match inode_free_l1 g ino2 i0 block2 st2 with
            | .ok (ino3, _, st3) =>
              match free_range_go g (fun i => i) (12 - blocks) blocks
                  ino3.direct { ino3 with direct := [] } st3 with
              | .ok (dir1, ino4, st4) =>
                .ok ({ ino4 with direct := dir1 }, st4)
              | .err e => .err e
              | .panic => .panic
            | .err e => .err e
            | .panic => .panic
        | .err e => .err e
        | .panic => .panic
    | .err e => .err e
    | .panic => .panic

end Rufs.Shrink

namespace Rufs.Shrink

/-- Concrete geometry with two pointers per pointer block: bs = 16, fs = 8. -/
def c3geo : SGeo := ⟨16, 8⟩

/-- Concrete triple-indirect tree: the L3 table at block 100 is [30, 40];
L2 table 30 is [50, 60] with L1 tables 50 = [70, 71] and 60 = [72, 73];
L2 table 40 is [80, 0] with L1 table 80 = [90, 91]. -/
def c3pstore : Nat → List Nat := fun b =>
  if b = 100 then [30, 40]
  else if b = 30 then [50, 60]
  else if b = 50 then [70, 71]
  else if b = 60 then [72, 73]
  else if b = 40 then [80, 0]
  else if b = 80 then [90, 91]
  else [0, 0]

/-- Initial shrink state over the concrete tree with an empty freed log. -/
def c3state : SState := ⟨c3pstore, []⟩

/-- A 416-byte inode (26 full 16-byte blocks: 12 direct, 2 under indirect-1,
4 under indirect-2, 8 under indirect-3) whose L3 table is block 100. -/
def c3ino : SInode := ⟨416, 0, List.replicate 12 0, [0, 0, 100]⟩

/-- C3: shrinking the 416-byte file to 304 bytes (retained prefix 19 blocks,
one leaf past the start of the indirect-3 zone) frees exactly the leaves
above the retained prefix (71, 72, 73, 90, 91) and the fully-freed interior
tables (60, 80, 40), and zeroes the freed slots of the retained L1 and L2
tables; but the L3 table at block 100 is rewritten with the contents of the
scratch buffer - the last L1 table freed, [90, 91] - instead of its retained
copy [30, 0]: ialloc.rs line 297 writes `block` where line 330's analogous
branch writes `fst`. -/
theorem c3_shrink_l3_table_corrupted :
    ∃ ino1 st1,
      inode_shrink c3geo c3state c3ino 304 = .ok (ino1, st1) ∧
      st1.pstore 50 = [70, 0] ∧
      st1.pstore 30 = [50, 0] ∧
      st1.freed = [(71, 16), (72, 16), (73, 16), (60, 16),
                   (90, 16), (91, 16), (80, 16), (40, 16)] ∧
      st1.pstore 100 = [90, 91] ∧
      st1.pstore 100 ≠ [30, 0] := by
  refine ⟨_, _, rfl, rfl, rfl, rfl, rfl, by decide⟩

end Rufs.Shrink

namespace Rufs.Dir

/-- A directory record as laid out by Header (dir.rs lines 6-13): inode
number, record length in bytes, and the name bytes (namelen =
`name.length`). The on-disk layout is 4+2+1+1 header bytes, the name, and
zero fill up to `reclen`. -/
structure DRec where
  inr : Nat
  reclen : Nat
  name : List Nat
deriving DecidableEq

/-- Function Header::minlen (dir.rs lines 108-110):
`(4 + 2 + 1 + 1 + namelen + 3) & !3`. -/
def minlen (namelen : Nat) : Nat := (8 + namelen + 3) / 4 * 4

/-- Wrapping 16-bit subtraction, for the u16 `hdr.reclen - minlen`. -/
def wsub16 (x y : Nat) : Nat := if y ≤ x then x - y else (x + 65536 - y) % 65536

/-- Function newlink_block (dir.rs lines 147-171) at the record level: walk
the slab; at the first record whose slack `reclen - minlen` fits the new
entry, shrink it to its minlen and write the entry after it with the slack
as its reclen. `none` models Ok(false): no record had room. -/
def newlink_block (entry : DRec) : List DRec → Option (List DRec)
  | [] => none
  | hdr :: rest =>
    let m := minlen hdr.name.length
    let rem := wsub16 hdr.reclen m
    if rem < minlen entry.name.length then
      match newlink_block entry rest with
      | some rest1 => some (hdr :: rest1)
      | none => none
    else
      some ({ hdr with reclen := m } :: { entry with reclen := rem } :: rest)

/-- Loop of unlink_block past the first record (dir.rs lines 213-229): on a
match the previous record absorbs the removed record's reclen (u16 add). -/
def unlink_go (name : List Nat) : DRec → List DRec → Option (Nat × List DRec)
  | _, [] => none
  | prev, hdr :: rest =>
    if hdr.name = name then
      some (hdr.inr, { prev with reclen := (prev.reclen + hdr.reclen) % 65536 } :: rest)
    else
      match unlink_go name hdr rest with
      | some (i, tail) => some (i, prev :: tail)
      | none => none

/-- Function unlink_block (dir.rs lines 173-234) at the record level: if the
match is the first record, the following record absorbs its reclen and is
rewritten at position 0 (`some (inr, some slab)`), unless there is no
following record, in which case the caller drops the whole slab
(`some (inr, none)`, the `has = false` path); a later match merges into the
preceding record. `none` models Ok(None): name not in this slab. -/
def unlink_block (name : List Nat) : List DRec → Option (Nat × Option (List DRec))
  | [] => none
  | hdr :: rest =>
    if hdr.name = name then
      match rest with
      | next :: rest1 =>
        some (hdr.inr,
          some ({ next with reclen := (hdr.reclen + next.reclen) % 65536 } :: rest1))
      | [] => some (hdr.inr, none)
    else
      match unlink_go name hdr rest with
      | some (i, tail) => some (i, some tail)
      | none => none

/-- The record dir_newlink writes when extending the directory (dir.rs lines
346-353): the entry alone with reclen = DIRBLKSIZE = 512. -/
def extendRec (entry : DRec) : DRec := { entry with reclen := 512 }

/-- A well-formed record: live inode number, reclen at least the layout
minimum, name fitting the u8 namelen field. -/
def wfRec (r : DRec) : Prop :=
  r.inr ≠ 0 ∧ minlen r.name.length ≤ r.reclen ∧ r.name.length ≤ 255

/-- The directory slab invariant: reclen fields sum to DIRBLKSIZE = 512 and
every record is well-formed. -/
def wfSlab (rs : List DRec) : Prop :=
  (rs.map DRec.reclen).sum = 512 ∧ ∀ r ∈ rs, wfRec r

theorem newlink_block_spec (entry : DRec) (hinr : entry.inr ≠ 0)
    (hnl : entry.name.length ≤ 255) :
    ∀ slab slab', (∀ r ∈ slab, wfRec r) → newlink_block entry slab = some slab' →
      (slab'.map DRec.reclen).sum = (slab.map DRec.reclen).sum ∧
      ∀ r ∈ slab', wfRec r := by
  intro slab
  induction slab with
  | nil => intro slab' _ h; simp [newlink_block] at h
  | cons hdr rest ih =>
    intro slab' hrec h
    have hhdr : wfRec hdr := hrec hdr (by simp)
    have hmle : minlen hdr.name.length ≤ hdr.reclen := hhdr.2.1
    unfold newlink_block at h
    simp only [] at h
    by_cases hc : wsub16 hdr.reclen (minlen hdr.name.length) < minlen entry.name.length
    · rw [if_pos hc] at h
      match hrest : newlink_block entry rest with
      | some rest1 =>
        rw [hrest] at h
        obtain ⟨hsum, hwf⟩ := ih rest1 (fun r hr => hrec r (by simp [hr])) hrest
        cases h
        constructor
        · simp [hsum]
        · intro r hr
          rcases List.mem_cons.mp hr with h1 | h1
          · exact h1 ▸ hhdr
          · exact hwf r h1
      | none => rw [hrest] at h; cases h
    · rw [if_neg hc] at h
      cases h
      have hws : wsub16 hdr.reclen (minlen hdr.name.length) =
          hdr.reclen - minlen hdr.name.length := by
        unfold wsub16; rw [if_pos hmle]
      constructor
      · simp only [List.map_cons, List.sum_cons]
        rw [hws]; omega
      · intro r hr
        rcases List.mem_cons.mp hr with h1 | h1
        · subst h1
          exact ⟨hhdr.1, le_refl _, hhdr.2.2⟩
        rcases List.mem_cons.mp h1 with h2 | h2
        · subst h2
          refine ⟨hinr, ?_, hnl⟩
          simpa using Nat.le_of_not_lt hc
        · exact hrec r (by simp [h2])

theorem unlink_go_spec (name : List Nat) :
    ∀ slab prev i tail, (∀ r ∈ prev :: slab, wfRec r) →
      prev.reclen + (slab.map DRec.reclen).sum ≤ 512 →
      unlink_go name prev slab = some (i, tail) →
      (tail.map DRec.reclen).sum = prev.reclen + (slab.map DRec.reclen).sum ∧
      ∀ r ∈ tail, wfRec r := by
  intro slab
  induction slab with
  | nil => intro prev i tail _ _ h; simp [unlink_go] at h
  | cons hdr rest ih =>
    intro prev i tail hrec hb h
    have hprev : wfRec prev := hrec prev (by simp)
    unfold unlink_go at h
    by_cases hc : hdr.name = name
    · rw [if_pos hc] at h
      cases h
      have hlt : prev.reclen + hdr.reclen < 65536 := by
        simp only [List.map_cons, List.sum_cons] at hb; omega
      constructor
      · simp only [List.map_cons, List.sum_cons]
        rw [Nat.mod_eq_of_lt hlt]; omega
      · intro r hr
        rcases List.mem_cons.mp hr with h1 | h1
        · subst h1
          refine ⟨hprev.1, ?_, hprev.2.2⟩
          rw [Nat.mod_eq_of_lt hlt]
          exact le_trans hprev.2.1 (Nat.le_add_right _ _)
        · exact hrec r (by simp [h1])
    · rw [if_neg hc] at h
      cases hrest : unlink_go name hdr rest with
      | some p =>
        obtain ⟨j, tail1⟩ := p
        rw [hrest] at h
        cases h
        have hb1 : hdr.reclen + (rest.map DRec.reclen).sum ≤ 512 := by
          simp only [List.map_cons, List.sum_cons] at hb; omega
        obtain ⟨hsum, hwf⟩ := ih hdr i tail1
          (fun r hr => hrec r (List.mem_cons_of_mem _ hr)) hb1 hrest
        constructor
        · simp only [List.map_cons, List.sum_cons]
          omega
        · intro r hr
          rcases List.mem_cons.mp hr with h1 | h1
          · exact h1 ▸ hprev
          · exact hwf r h1
      | none => rw [hrest] at h; cases h

/-- C7: the directory slab invariant - reclen fields of a 512-byte slab sum
to exactly 512, every record well-formed - is preserved by the three
mutations: newlink_block splits the incumbent record's slack between the
incumbent (shrunk to its minlen) and the new entry; unlink_block merges the
removed record's reclen into the adjacent record whenever the slab survives;
and the directory-extension path of dir_newlink writes the new entry as the
sole record with reclen = 512. -/
theorem c7_dir_slab_invariant (entry : DRec) (name : List Nat)
    (slab : List DRec) (hwf : wfSlab slab) (hinr : entry.inr ≠ 0)
    (hnl : entry.name.length ≤ 255) :
    (∀ slab1, newlink_block entry slab = some slab1 → wfSlab slab1) ∧
    (∀ i slab1, unlink_block name slab = some (i, some slab1) → wfSlab slab1) ∧
    wfSlab [extendRec entry] := by
  obtain ⟨hsum, hrec⟩ := hwf
  refine ⟨?_, ?_, ?_⟩
  · intro slab1 h
    obtain ⟨h1, h2⟩ := newlink_block_spec entry hinr hnl slab slab1 hrec h
    exact ⟨h1.trans hsum, h2⟩
  · intro i slab1 h
    cases slab with
    | nil => simp [unlink_block] at h
    | cons hdr rest =>
      have hhdr : wfRec hdr := hrec hdr (by simp)
      simp only [unlink_block] at h
      by_cases hc : hdr.name = name
      · rw [if_pos hc] at h
        cases rest with
        | nil => simp at h
        | cons next rest1 =>
          simp only [Option.some.injEq, Prod.mk.injEq] at h
          obtain ⟨_, h2⟩ := h
          have hnext : wfRec next := hrec next (by simp)
          have hlt : hdr.reclen + next.reclen < 65536 := by
            simp only [List.map_cons, List.sum_cons] at hsum; omega
          cases h2
          constructor
          · simp only [List.map_cons, List.sum_cons] at hsum ⊢
            rw [Nat.mod_eq_of_lt hlt]; omega
          · intro r hr
            rcases List.mem_cons.mp hr with h1 | h1
            · subst h1
              refine ⟨hnext.1, ?_, hnext.2.2⟩
              rw [Nat.mod_eq_of_lt hlt]
              exact le_trans hnext.2.1 (Nat.le_add_left _ _)
            · exact hrec r (by simp [h1])
      · rw [if_neg hc] at h
        cases hgo : unlink_go name hdr rest with
        | some p =>
          obtain ⟨j, tail⟩ := p
          rw [hgo] at h
          simp only [Option.some.injEq, Prod.mk.injEq] at h
          obtain ⟨_, h2⟩ := h
          cases h2
          have hb : hdr.reclen + (rest.map DRec.reclen).sum ≤ 512 := by
            simp only [List.map_cons, List.sum_cons] at hsum; omega
          obtain ⟨hs, hw⟩ := unlink_go_spec name rest hdr j slab1 hrec hb hgo
          refine ⟨?_, hw⟩
          simp only [List.map_cons, List.sum_cons] at hsum
          omega
        | none => rw [hgo] at h; cases h
  · refine ⟨by simp [extendRec], ?_⟩
    intro r hr
    rcases List.mem_cons.mp hr with h1 | h1
    · subst h1
      refine ⟨hinr, ?_, hnl⟩
      show minlen entry.name.length ≤ 512
      unfold minlen; omega
    · simp at h1

/-- A two-entry slab holding "." with reclen 12 and ".." with reclen 500
satisfies the slab invariant. -/
theorem wfSlab_newdir : wfSlab [⟨2, 12, [46]⟩, ⟨1, 500, [46, 46]⟩] := by
  constructor
  · decide
  · intro r hr
    simp only [List.mem_cons, List.not_mem_nil, or_false] at hr
    rcases hr with h | h
    · subst h; exact ⟨by decide, by decide, by decide⟩
    · subst h; exact ⟨by decide, by decide, by decide⟩

/-- C7 witness: a two-entry directory slab ("." with reclen 12, ".." with
reclen 500) keeps the invariant when the entry "a" is inserted, when ".."
is unlinked, and in the extension record. -/
theorem c7_dir_slab_invariant_witness :
    wfSlab [⟨2, 12, [46]⟩, ⟨1, 500, [46, 46]⟩] ∧ (5 : Nat) ≠ 0 ∧
    ((∀ slab1, newlink_block ⟨5, 264, [97]⟩ [⟨2, 12, [46]⟩, ⟨1, 500, [46, 46]⟩] =
        some slab1 → wfSlab slab1) ∧
     (∀ i slab1, unlink_block [46, 46] [⟨2, 12, [46]⟩, ⟨1, 500, [46, 46]⟩] =
        some (i, some slab1) → wfSlab slab1) ∧
     wfSlab [extendRec ⟨5, 264, [97]⟩]) :=
  ⟨wfSlab_newdir, by decide,
    c7_dir_slab_invariant ⟨5, 264, [97]⟩ [46, 46] [⟨2, 12, [46]⟩, ⟨1, 500, [46, 46]⟩]
      wfSlab_newdir (by decide) (by decide)⟩

end Rufs.Dir

namespace Rufs.Symlink

/-- The two payload forms of InodeData relevant to symlinks: the inline
shortlink byte array (UFS_SLLEN = 120 bytes) or the blocked form. -/
inductive SLData where
  | shortlink (bytes : List Nat)
  | blocksForm
deriving DecidableEq

/-- Symlink-side view of an inode: whether its kind is Symlink, the blocks
counter, the byte size, and the data payload. -/
structure SLInode where
  isSymlink : Bool
  blocks : Nat
  size : Nat
  data : SLData
deriving DecidableEq

/-- Constant UFS_SLLEN = (UFS_NDADDR + UFS_NIADDR) * 8 = (12 + 3) * 8. -/
def UFS_SLLEN : Nat := (12 + 3) * 8

/-- Function symlink_set (symlink.rs lines 33-52): EINVAL unless the inode
is a symlink; assert blocks == 0; a link shorter than UFS_SLLEN is stored
inline, zero-padded, with size = link length; a longer link hits
`todo!("creating long symlinks")`, which panics. -/
def symlink_set (ino : SLInode) (link : List Nat) : Outcome SLInode :=
  if ino.isSymlink = false then .err .EINVAL
  else if ino.blocks ≠ 0 then .panic
  else
    let len := link.length
    if len < UFS_SLLEN then
      .ok { ino with
            data := .shortlink (link ++ List.replicate (UFS_SLLEN - len) 0),
            size := len }
    else .panic

/-- The freshly created symlink inode symlink() passes to symlink_set:
kind Symlink, blocks = 0. -/
def c8ino : SLInode := ⟨true, 0, 0, .shortlink []⟩

/-- C8 counterexample: a target of exactly 120 bytes is not written through
the file-data path - symlink_set hits the `todo!` and panics. -/
theorem c8_long_symlink_unimplemented :
    symlink_set c8ino (List.replicate 120 97) = .panic := by rfl

/-- C8 (amended): on a symlink inode with blocks = 0, a target shorter than
120 bytes is stored inline (data = the zero-padded link, size = target
length, blocks left 0); every target of 120 bytes or more panics in the
`todo!("creating long symlinks")` arm instead of being written through the
file-data path. -/
theorem c8_symlink_inline (ino : SLInode) (link : List Nat)
    (hk : ino.isSymlink = true) (hb : ino.blocks = 0)
    (hlen : link.length < 120) :
    symlink_set ino link =
      .ok { ino with
            data := .shortlink (link ++ List.replicate (120 - link.length) 0),
            size := link.length } ∧
    ∀ link2 : List Nat, 120 ≤ link2.length → symlink_set ino link2 = .panic := by
  constructor
  · simp [symlink_set, hk, hb, UFS_SLLEN, hlen]
  · intro link2 h2
    simp [symlink_set, hk, hb, UFS_SLLEN]
    omega

/-- C8 witness: the two-byte link [97, 98] on the fresh symlink inode. -/
theorem c8_symlink_inline_witness :
    c8ino.isSymlink = true ∧ c8ino.blocks = 0 ∧
    ([97, 98] : List Nat).length < 120 ∧
    (symlink_set c8ino [97, 98] =
      .ok { c8ino with
            data := .shortlink ([97, 98] ++ List.replicate (120 - 2) 0),
            size := 2 } ∧
     ∀ link2 : List Nat, 120 ≤ link2.length → symlink_set c8ino link2 = .panic) :=
  ⟨rfl, rfl, by decide,
    c8_symlink_inline c8ino [97, 98] rfl rfl (by decide)⟩

end Rufs.Symlink

namespace Rufs.Ops

/-- Function write_enabled (mod.rs lines 124-126): whether the backing
device was opened writable. -/
def write_enabled (rw : Bool) : Bool := rw

/-- Function assert_rw (mod.rs lines 128-134): Ok on a writable engine,
EROFS otherwise. -/
def assert_rw (rw : Bool) : Outcome Unit :=
  if write_enabled rw then .ok () else .err .EROFS

/-- The shape shared by every mutating operation: `assert_rw()?` followed by
the operation's body. The body is an arbitrary state transformer `rest`, so
a theorem over all `rest` covers the body without constraining it; on the
error path the state is returned untouched and `rest` never runs. -/
def guarded {σ α : Type} (rw : Bool) (rest : σ → Outcome α × σ) (st : σ) :
    Outcome α × σ :=
  match assert_rw rw with
  | .ok _ => rest st
  | .err e => (.err e, st)
  | .panic => (.panic, st)

/-- Function check_name_is_legal (mod.rs lines 231-244): EINVAL when the
name contains a slash (byte 47), is "." or ".." while special names are not
allowed, or contains a NUL byte; Ok otherwise. -/
def check_name_is_legal (name : List Nat) (allow_special : Bool) : Outcome Unit :=
  if name.contains 47 || (name == [46] && !allow_special) ||
      (name == [46, 46] && !allow_special) || name.contains 0
  then .err .EINVAL else .ok ()

/-- Function inode_write (inode.rs line 57: `self.assert_rw()?` first). -/
def inode_write {σ α : Type} (rw : Bool) (rest : σ → Outcome α × σ) (st : σ) :
    Outcome α × σ := guarded rw rest st

/-- Function inode_modify (inode.rs line 180). -/
def inode_modify {σ α : Type} (rw : Bool) (rest : σ → Outcome α × σ) (st : σ) :
    Outcome α × σ := guarded rw rest st

/-- Function inode_truncate (ialloc.rs line 373). -/
def inode_truncate {σ α : Type} (rw : Bool) (rest : σ → Outcome α × σ) (st : σ) :
    Outcome α × σ := guarded rw rest st

/-- Function unlink (dir.rs line 359). -/
def unlink {σ α : Type} (rw : Bool) (rest : σ → Outcome α × σ) (st : σ) :
    Outcome α × σ := guarded rw rest st

/-- Function rmdir (dir.rs line 366). -/
def rmdir {σ α : Type} (rw : Bool) (rest : σ → Outcome α × σ) (st : σ) :
    Outcome α × σ := guarded rw rest st

/-- Function mknod (dir.rs lines 389-404): assert_rw, then
check_name_is_legal(name, false), then the allocation/link body. -/
def mknod {σ α : Type} (rw : Bool) (name : List Nat) (rest : σ → Outcome α × σ)
    (st : σ) : Outcome α × σ :=
  match assert_rw rw with
  | .ok _ =>
    match check_name_is_legal name false with
    | .ok _ => rest st
    | .err e => (.err e, st)
    | .panic => (.panic, st)
  | .err e => (.err e, st)
  | .panic => (.panic, st)

/-- Function mkdir (dir.rs lines 406-433): its first step is mknod, whose
guards run before anything else; the directory-setup steps after mknod
belong to the body. -/
def mkdir {σ α : Type} (rw : Bool) (name : List Nat) (rest : σ → Outcome α × σ)
    (st : σ) : Outcome α × σ := mknod rw name rest st

/-- Function symlink (symlink.rs lines 54-66): assert_rw, then mknod, then
symlink_set (part of the body). -/
def symlink {σ α : Type} (rw : Bool) (name : List Nat) (rest : σ → Outcome α × σ)
    (st : σ) : Outcome α × σ :=
  match assert_rw rw with
  | .ok _ => mknod rw name rest st
  | .err e => (.err e, st)
  | .panic => (.panic, st)

/-- C2: on an engine opened read-only, every mutating public operation
(inode_write, inode_modify, inode_truncate, mknod, mkdir, symlink, unlink,
rmdir) returns EROFS and the state is returned unchanged: assert_rw fails
first, so the operation's body - universally quantified here - never runs
and cannot touch the filesystem or the device. -/
theorem c2_readonly_all_erofs {σ α : Type} (rw : Bool) (name : List Nat)
    (rest : σ → Outcome α × σ) (st : σ) (hrw : rw = false) :
    inode_write rw rest st = (.err .EROFS, st) ∧
    inode_modify rw rest st = (.err .EROFS, st) ∧
    inode_truncate rw rest st = (.err .EROFS, st) ∧
    mknod rw name rest st = (.err .EROFS, st) ∧
    mkdir rw name rest st = (.err .EROFS, st) ∧
    symlink rw name rest st = (.err .EROFS, st) ∧
    unlink rw rest st = (.err .EROFS, st) ∧
    rmdir rw rest st = (.err .EROFS, st) := by
  subst hrw
  refine ⟨?_, ?_, ?_, ?_, ?_, ?_, ?_, ?_⟩ <;>
    simp [inode_write, inode_modify, inode_truncate, mknod, mkdir, symlink,
      unlink, rmdir, guarded, assert_rw, write_enabled]

/-- C2 witness: a read-only engine over state 0 with a body that would bump
the state; every operation returns EROFS with the state still 0. -/
theorem c2_readonly_all_erofs_witness :
    (false = false) ∧
    (inode_write false (fun s : Nat => (Outcome.ok (), s + 1)) 0 =
        (Outcome.err Err.EROFS, 0) ∧
     inode_modify false (fun s : Nat => (Outcome.ok (), s + 1)) 0 =
        (Outcome.err Err.EROFS, 0) ∧
     inode_truncate false (fun s : Nat => (Outcome.ok (), s + 1)) 0 =
        (Outcome.err Err.EROFS, 0) ∧
     mknod false [97] (fun s : Nat => (Outcome.ok (), s + 1)) 0 =
        (Outcome.err Err.EROFS, 0) ∧
     mkdir false [97] (fun s : Nat => (Outcome.ok (), s + 1)) 0 =
        (Outcome.err Err.EROFS, 0) ∧
     symlink false [97] (fun s : Nat => (Outcome.ok (), s + 1)) 0 =
        (Outcome.err Err.EROFS, 0) ∧
     unlink false (fun s : Nat => (Outcome.ok (), s + 1)) 0 =
        (Outcome.err Err.EROFS, 0) ∧
     rmdir false (fun s : Nat => (Outcome.ok (), s + 1)) 0 =
        (Outcome.err Err.EROFS, 0)) :=
  ⟨rfl, c2_readonly_all_erofs false [97] (fun s : Nat => (Outcome.ok (), s + 1)) 0 rfl⟩

/-- C9 counterexample: the empty name is not rejected - check_name_is_legal
accepts it, and mknod on a writable engine proceeds to run its mutating
body. -/
theorem c9_empty_name_accepted :
    check_name_is_legal [] false = .ok () ∧
    mknod true ([] : List Nat) (fun s : Nat => (Outcome.ok (), s + 1)) 0 =
      (Outcome.ok (), 1) := by
  constructor
  · rfl
  · rfl

/-- C9 (amended): mknod, mkdir, and symlink validate the name before any
mutation and fail with EINVAL for a name containing a slash, a name
containing NUL, and the names "." and ".." (special names not being allowed
on these paths) - the state is returned untouched; the empty name, however,
is accepted. -/
theorem c9_name_validation {σ α : Type} (name : List Nat)
    (rest : σ → Outcome α × σ) (st : σ)
    (h : name.contains 47 = true ∨ name.contains 0 = true ∨
      name = [46] ∨ name = [46, 46]) :
    mknod true name rest st = (.err .EINVAL, st) ∧
    mkdir true name rest st = (.err .EINVAL, st) ∧
    symlink true name rest st = (.err .EINVAL, st) := by
  have hx : check_name_is_legal name false = .err .EINVAL := by
    unfold check_name_is_legal
    rcases h with h | h | h | h
    · have h1 : 47 ∈ name := by simpa using h
      simp [h1]
    · have h1 : 0 ∈ name := by simpa using h
      simp [h1]
    · subst h; simp
    · subst h; simp
  refine ⟨?_, ?_, ?_⟩ <;>
    simp [mknod, mkdir, symlink, assert_rw, write_enabled, hx]

/-- C9 witness: the name "." on a writable engine is rejected with EINVAL by
all three operations, leaving the state at 0. -/
theorem c9_name_validation_witness :
    (([46] : List Nat).contains 47 = true ∨ ([46] : List Nat).contains 0 = true ∨
      ([46] : List Nat) = [46] ∨ ([46] : List Nat) = [46, 46]) ∧
    (mknod true [46] (fun s : Nat => (Outcome.ok (), s + 1)) 0 =
        (Outcome.err Err.EINVAL, 0) ∧
     mkdir true [46] (fun s : Nat => (Outcome.ok (), s + 1)) 0 =
        (Outcome.err Err.EINVAL, 0) ∧
     symlink true [46] (fun s : Nat => (Outcome.ok (), s + 1)) 0 =
        (Outcome.err Err.EINVAL, 0)) :=
  ⟨by decide,
    c9_name_validation [46] (fun s : Nat => (Outcome.ok (), s + 1)) 0 (by decide)⟩

end Rufs.Ops
